import Mathlib

/-!
Shallow embedding of the IPTV Stremio addon (addon.js) for specification
checking.  The repository file addon.js contains two module variants that are
both embedded here: a compact variant (its class appears first in the file,
providing normalizeCategory, CATEGORY_MAPPINGS and getCatalog) and the main
Taksos variant (providing the module level cache, getCachedData and
setCachedData, getCatalogItems with its scoring search, getTransliterations,
getEpisodeStream and getStream, loadXtreamData, tryAlternativeFormats and
parseM3UContent).

Modelling conventions:
  - JavaScript strings are Lean Strings; character level operations work on
    the underlying List Char.  toLowerCase and toUpperCase are modelled by
    the ASCII maps Char.toLower and Char.toUpper.
  - Array.prototype.sort with a comparator cmp is modelled by
    List.insertionSort over the relation "cmp a b <= 0"; this is a stable
    sort, as required of Array.prototype.sort by the ECMAScript standard.
  - JavaScript numbers occurring in the match scoring are modelled by
    rationals; the scores involved are small fractions whose comparisons are
    exact in either representation.
  - The module level Map used as cache is modelled by an insertion ordered
    association list, matching the iteration order semantics of Map.
  - Network effects are modelled by passing the decoded responses of the
    upstream server (and the current time) as explicit arguments; a missing
    response models a fetch or a body decode that throws.
  - Cosmetic metadata fields that no query reads (logo, poster, plot, year)
    are not carried in the embedded item record.
-/

/-! ## Character and string primitives (models of JS string methods) -/

/-- JS toLowerCase, one character (ASCII). -/
def lowerCh (c : Char) : Char := Char.toLower c

/-- JS toUpperCase, one character (ASCII). -/
def upperCh (c : Char) : Char := Char.toUpper c

/-- Whitespace test used for trim and the regex class backslash-s. -/
def isWsCh (c : Char) : Bool := c.isWhitespace

/-- JS toLowerCase on a character list. -/
def lowerL (l : List Char) : List Char := l.map lowerCh

/-- JS trim on a character list. -/
def trimL (l : List Char) : List Char :=
  ((l.dropWhile isWsCh).reverse.dropWhile isWsCh).reverse

/-- JS split on a single space character: s.split(' '). -/
def splitSpL : List Char → List (List Char)
  | [] => [[]]
  | c :: cs =>
    if c = ' ' then [] :: splitSpL cs
    else
      match splitSpL cs with
      | [] => [[c]]
      | w :: ws => (c :: w) :: ws

/-- JS join(' '): the inverse of splitSpL. -/
def joinSpL : List (List Char) → List Char
  | [] => []
  | [w] => w
  | w :: ws => w ++ ' ' :: joinSpL ws

/-- One word of the title casing: w.charAt(0).toUpperCase() + w.slice(1).toLowerCase(). -/
def capWordL : List Char → List Char
  | [] => []
  | c :: cs => upperCh c :: lowerL cs

/-- Title casing used by normalizeCategory:
    s.trim().split(' ').map(capitalize).join(' '). -/
def titleCaseL (l : List Char) : List Char :=
  joinSpL ((splitSpL (trimL l)).map capWordL)

/-- JS split(regex backslash-s+), as a character state machine: inWs records
    that the current position is inside a whitespace run whose separator has
    already been emitted, acc is the current chunk reversed. -/
def splitWsGo (inWs : Bool) (acc : List Char) : List Char → List (List Char)
  | [] => [acc.reverse]
  | c :: cs =>
    if isWsCh c then
      if inWs then splitWsGo true acc cs
      else acc.reverse :: splitWsGo true [] cs
    else splitWsGo false (c :: acc) cs

/-- JS s.split(regex backslash-s+). -/
def splitWsL (l : List Char) : List (List Char) := splitWsGo false [] l

/-- JS hay.includes(needle) on character lists. -/
def containsSubL : List Char → List Char → Bool
  | hay, needle =>
    if needle.isPrefixOf hay then true
    else
      match hay with
      | [] => false
      | _ :: t => containsSubL t needle

/-- JS hay.includes(needle) on strings. -/
def containsSubS (hay needle : String) : Bool := containsSubL hay.data needle.data

/-- JS s.startsWith(p). -/
def startsWithS (s p : String) : Bool := p.data.isPrefixOf s.data

/-- JS s.toLowerCase(). -/
def lowerS (s : String) : String := String.mk (lowerL s.data)

/-- JS s.trim(). -/
def trimS (s : String) : String := String.mk (trimL s.data)

/-- Title casing on strings. -/
def titleCaseS (s : String) : String := String.mk (titleCaseL s.data)

/-- Rest of hay after the first occurrence of pat, if any (regex helper). -/
def afterSubL : List Char → List Char → Option (List Char)
  | hay, pat =>
    if pat.isPrefixOf hay then some (hay.drop pat.length)
    else
      match hay with
      | [] => none
      | _ :: t => afterSubL t pat

/-- JS s.replace(target, repl) with a string pattern: first occurrence only. -/
def replaceFirstL (s : List Char) (target repl : List Char) : List Char :=
  if target.isPrefixOf s then repl ++ s.drop target.length
  else
    match s with
    | [] => []
    | c :: t => c :: replaceFirstL t target repl

/-- JS s.replace(target, repl) on strings. -/
def replaceFirstS (s target repl : String) : String :=
  String.mk (replaceFirstL s.data target.data repl.data)

/-- Lexicographic three way comparison on character lists: the model of
    localeCompare and of the default sort() comparison. -/
def cmpChars : List Char → List Char → Ordering
  | [], [] => .eq
  | [], _ :: _ => .lt
  | _ :: _, [] => .gt
  | a :: as, b :: bs =>
    if a < b then .lt else if b < a then .gt else cmpChars as bs

/-- Model of JS a.localeCompare(b) (sign of the comparison). -/
def localeCompare (a b : String) : Ordering := cmpChars a.data b.data

/-- True when a numeric comparator result is at most zero. -/
def ordLeZero (o : Ordering) : Bool :=
  match o with
  | .gt => false
  | _ => true

/-- JS s.split(sep) for a one character separator. -/
def splitChL (sep : Char) : List Char → List (List Char)
  | [] => [[]]
  | c :: cs =>
    if c = sep then [] :: splitChL sep cs
    else
      match splitChL sep cs with
      | [] => [[c]]
      | w :: ws => (c :: w) :: ws

/-- Deduplication keeping first occurrences: the model of building a Set from
    an array and spreading it back. -/
def dedupGo (seen : List String) : List String → List String
  | [] => []
  | x :: xs => if seen.contains x then dedupGo seen xs else x :: dedupGo (x :: seen) xs

/-! ## Category normalization (compact variant of addon.js, lines 17 to 58) -/

/-- The fixed synonym table CATEGORY_MAPPINGS, in source order. -/
def CATEGORY_MAPPINGS : List (String × String) :=
  [("sport", "Sports"), ("sports", "Sports"), ("football", "Sports"),
   ("soccer", "Sports"), ("basketball", "Sports"), ("tennis", "Sports"),
   ("news", "News"), ("movies", "Movies"), ("movie", "Movies"),
   ("film", "Movies"), ("series", "Series"), ("tv", "Series"),
   ("kids", "Kids"), ("cartoon", "Kids"), ("music", "Music"),
   ("documentary", "Documentary"), ("religious", "Religious")]

/-- Property lookup CATEGORY_MAPPINGS[k]. -/
def lookupMapping (k : String) : Option String :=
  (CATEGORY_MAPPINGS.find? (fun p => p.1 == k)).map (·.2)

/-- normalizeCategory from the compact variant: empty label gives Other,
    otherwise exact table lookup of the lowercased trimmed label, otherwise
    title casing of the original label. -/
def normalizeCategory (category : String) : String :=
  if category = "" then "Other"
  else
    match lookupMapping (trimS (lowerS category)) with
    | some v => v
    | none => titleCaseS category

/-- Modelled from the spec: the CategoryNormalizer algorithm as the
    specification states it, including the substring containment scan over
    the table (raw contains a known key, or a known key contains raw, first
    listed wins) that the code does not perform. -/
def specNormalizeCategory (rawLabel : String) : String :=
  if rawLabel = "" then "Other"
  else
    let lower := trimS (lowerS rawLabel)
    match lookupMapping lower with
    | some v => v
    | none =>
      match CATEGORY_MAPPINGS.find?
          (fun p => containsSubS lower p.1 || containsSubS p.1 lower) with
      | some p => p.2
      | none => titleCaseS rawLabel

/-- Modelled from the spec (amended wording): lower case and trim, exact
    table lookup only, and on a miss title case the original label word by
    word; no substring scan. -/
def specNormalizeExact (rawLabel : String) : String :=
  if rawLabel = "" then "Other"
  else
    match lookupMapping (trimS (lowerS rawLabel)) with
    | some v => v
    | none => titleCaseS rawLabel

/-! ## The module level cache (Taksos variant, addon.js lines 254 to 306) -/

/-- One stored cache record: { data, timestamp }. -/
structure CacheEntry (α : Type) where
  data : α
  timestamp : Int
deriving DecidableEq, Repr

/-- The module level Map, as an insertion ordered association list. -/
abbrev CacheMap (α : Type) := List (String × CacheEntry α)

/-- CACHE_TTL = 30 * 60 * 1000 milliseconds. -/
def CACHE_TTL : Int := 30 * 60 * 1000

/-- Map.prototype.get. -/
def mapGet {α : Type} : CacheMap α → String → Option (CacheEntry α)
  | [], _ => none
  | (k', v) :: t, k => if k' = k then some v else mapGet t k

/-- Map.prototype.delete (keys are unique, so deleting the first match). -/
def mapDelete {α : Type} : CacheMap α → String → CacheMap α
  | [], _ => []
  | (k', v) :: t, k => if k' = k then t else (k', v) :: mapDelete t k

/-- Map.prototype.set: overwrite in place, or append preserving insertion
    order. -/
def mapSet {α : Type} : CacheMap α → String → CacheEntry α → CacheMap α
  | [], k, v => [(k, v)]
  | (k', v') :: t, k, v => if k' = k then (k, v) :: t else (k', v') :: mapSet t k v

/-- Membership of a key. -/
def containsKey {α : Type} (m : CacheMap α) (k : String) : Bool :=
  (mapGet m k).isSome

/-- getCachedData: serve entries younger than the TTL; otherwise delete the
    entry lazily and report absence.  Returns the result together with the
    cache left behind (the method mutates the shared map). -/
def getCachedData {α : Type} (c : CacheMap α) (key : String) (now : Int) :
    Option α × CacheMap α :=
  match mapGet c key with
  | some cached =>
    if now - cached.timestamp < CACHE_TTL then (some cached.data, c)
    else (none, mapDelete c key)
  | none => (none, mapDelete c key)

/-- setCachedData: insert, then if the map now holds more than 100 entries
    delete the oldest (first inserted) key. -/
def setCachedData {α : Type} (c : CacheMap α) (key : String) (data : α) (now : Int) :
    CacheMap α :=
  let c' := mapSet c key ⟨data, now⟩
  if 100 < c'.length then
    match c'.head? with
    | some e => mapDelete c' e.1
    | none => c'
  else c'

/-- Repeated setCachedData calls, used to state the capacity bound claim. -/
def insertAll {α : Type} (items : List (String × α × Int)) (c : CacheMap α) : CacheMap α :=
  items.foldl (fun acc kv => setCachedData acc kv.1 kv.2.1 kv.2.2) c

/-! ## Catalog data model (Taksos variant) -/

/-- A catalog content item as the queries read it: identifier, display name,
    playback url and normalized category.  (Cosmetic metadata fields that no
    query consults are omitted.) -/
structure Item where
  id : String
  name : String
  url : String
  category : String
deriving DecidableEq, Repr

/-- The per kind category label lists kept on the addon instance. -/
structure CategoryLists where
  live : List String
  movies : List String
  series : List String
deriving DecidableEq, Repr

/-- The mutable addon instance state: the catalog snapshot arrays. -/
structure AddonState where
  channels : List Item
  movies : List Item
  series : List Item
  categories : CategoryLists
deriving DecidableEq, Repr

/-- The listing array selected by the switch on the request type. -/
def kindList (st : AddonState) (ty : String) : List Item :=
  if ty = "tv" then st.channels
  else if ty = "movie" then st.movies
  else if ty = "series" then st.series
  else []

/-- Writing back the array that an in place sort mutated. -/
def updateKind (st : AddonState) (ty : String) (l : List Item) : AddonState :=
  if ty = "tv" then { st with channels := l }
  else if ty = "movie" then { st with movies := l }
  else if ty = "series" then { st with series := l }
  else st

/-- The comparator of the no search branch, as the relation "comparator at
    most zero": by category (localeCompare), ties by name. -/
def catalogSortLe (a b : Item) : Bool :=
  if a.category = b.category then ordLeZero (localeCompare a.name b.name)
  else ordLeZero (localeCompare a.category b.category)

/-- catalogSortLe as a relation for the stable sort. -/
def catalogSortRel (a b : Item) : Prop := catalogSortLe a b = true

instance : DecidableRel catalogSortRel := fun _ _ =>
  inferInstanceAs (Decidable (_ = true))

/-- The comparator of the search branch on scored items: descending match
    score, ties by name (localeCompare), again as "comparator at most zero". -/
def searchSortLe (a b : Item × ℚ) : Bool :=
  if b.2 = a.2 then ordLeZero (localeCompare a.1.name b.1.name)
  else decide (b.2 - a.2 ≤ 0)

/-- searchSortLe as a relation for the stable sort. -/
def searchSortRel (a b : Item × ℚ) : Prop := searchSortLe a b = true

instance : DecidableRel searchSortRel := fun _ _ =>
  inferInstanceAs (Decidable (_ = true))

/-! ## getTransliterations (addon.js lines 763 to 865) -/

/-- The letter substitution table letterMap; absent keys model undefined. -/
def letterMap (c : Char) : Option (List String) :=
  if c = 'a' then some ["ا", "أ", "إ", "آ", "ع"]
  else if c = 'b' then some ["ب"]
  else if c = 'c' then some ["ك", "س"]
  else if c = 'd' then some ["د", "ض"]
  else if c = 'e' then some ["ي", "ع", "ا"]
  else if c = 'f' then some ["ف"]
  else if c = 'g' then some ["ج", "غ"]
  else if c = 'h' then some ["ه", "ح", "خ"]
  else if c = 'i' then some ["ي", "ا"]
  else if c = 'j' then some ["ج"]
  else if c = 'k' then some ["ك", "ق"]
  else if c = 'l' then some ["ل"]
  else if c = 'm' then some ["م"]
  else if c = 'n' then some ["ن"]
  else if c = 'o' then some ["و", "ا"]
  else if c = 'p' then some ["ب"]
  else if c = 'q' then some ["ق", "ك"]
  else if c = 'r' then some ["ر"]
  else if c = 's' then some ["س", "ص", "ش"]
  else if c = 't' then some ["ت", "ط"]
  else if c = 'u' then some ["و", "ا"]
  else if c = 'v' then some ["ف", "ب"]
  else if c = 'w' then some ["و"]
  else if c = 'x' then some ["كس", "إكس"]
  else if c = 'y' then some ["ي"]
  else if c = 'z' then some ["ز", "ظ"]
  else none

/-- One character step of the Arabic variation generation, including the
    slice(0, 20) cap. -/
def arabicStep (vars : List String) (c : Char) : List String :=
  match letterMap c with
  | some chars => (vars.flatMap (fun v => chars.map (fun a => v ++ a))).take 20
  | none =>
    if c = ' ' then vars.map (fun v => v ++ " ")
    else vars.map (fun v => v.push c)

/-- The commonWords dictionary, in source order. -/
def commonWords : List (String × String) :=
  [("omar", "عمر"), ("ahmed", "أحمد"), ("mohamed", "محمد"), ("ali", "علي"),
   ("hassan", "حسن"), ("fatima", "فاطمة"), ("aisha", "عائشة"),
   ("series", "مسلسل"), ("movie", "فيلم"), ("episode", "حلقة"),
   ("season", "موسم"), ("show", "برنامج"), ("drama", "دراما"),
   ("comedy", "كوميديا"),
   ("paranormal", "ما وراء الطبيعة"), ("ma wara2 el tabe3a", "ما وراء الطبيعة"),
   ("ma wara el tabe3a", "ما وراء الطبيعة"), ("wara2 el tabe3a", "ما وراء الطبيعة"),
   ("supernatural", "ما وراء الطبيعة"), ("بارانورمال", "paranormal"),
   ("la casa de papel", "بيت من ورق"), ("money heist", "بيت من ورق"),
   ("casa de papel", "بيت من ورق"), ("breaking bad", "بريكنغ باد"),
   ("game of thrones", "صراع العروش"), ("prison break", "هروب السجن")]

/-- getTransliterations: the search term itself, its Arabic letter
    variations, and whole word replacements, deduplicated and with blank
    entries dropped. -/
def getTransliterations (searchTerm : String) : List String :=
  let searchLower := trimS (lowerS searchTerm)
  let arabicVariations := searchLower.data.foldl arabicStep [""]
  let results1 := [searchTerm] ++ arabicVariations.filter (fun v => 1 < v.length)
  let results2 := commonWords.foldl
    (fun res p =>
      if containsSubS searchLower p.1 then
        res ++ [replaceFirstS searchLower p.1 p.2, p.2]
      else res)
    results1
  dedupGo [] (results2.filter (fun r => !(r == "") && decide (0 < (trimS r).length)))

/-! ## Search scoring (getCatalogItems, addon.js lines 667 to 748) -/

/-- The first scoring stage: exact name match, name substring, category
    substring. -/
def matchStage1 (searchLower : String) (itemName itemCategory : List Char) : ℚ :=
  if itemName = searchLower.data then 100
  else if containsSubL itemName searchLower.data then
    80 + ((searchLower.length : ℚ) / (itemName.length : ℚ)) * 15
  else if containsSubL itemCategory searchLower.data then 60
  else 0

/-- One transliteration of the loop body: containment checks, then word by
    word matching, each keeping the maximum score seen. -/
def translitStep (itemName itemCategory : List Char) (acc : ℚ) (trans : String) : ℚ :=
  let acc1 :=
    if containsSubL itemName trans.data then max acc 75
    else if containsSubL itemCategory trans.data then max acc 55
    else acc
  let transWords := splitWsL trans.data
  let nameWords := splitWsL itemName
  let categoryWords := splitWsL itemCategory
  let transMatches := transWords.filter (fun tw =>
    nameWords.any (fun nw => containsSubL nw tw) ||
    categoryWords.any (fun cw => containsSubL cw tw))
  if 0 < transMatches.length then
    max acc1 (40 + ((transMatches.length : ℚ) / (transWords.length : ℚ)) * 20)
  else acc1

/-- The complete match score of one item for a (lowercased, trimmed) search
    text. -/
def computeScore (searchLower : String) (it : Item) : ℚ :=
  let itemName := lowerL it.name.data
  let itemCategory := lowerL it.category.data
  let m1 := matchStage1 searchLower itemName itemCategory
  let m2 :=
    if m1 = 0 then
      (getTransliterations searchLower).foldl (translitStep itemName itemCategory) 0
    else m1
  if m2 = 0 then
    let searchWords := splitWsL searchLower.data
    let nameWords := splitWsL itemName
    let categoryWords := splitWsL itemCategory
    let wordMatches := searchWords.filter (fun sw =>
      nameWords.any (fun nw => containsSubL nw sw) ||
      categoryWords.any (fun cw => containsSubL cw sw))
    if 0 < wordMatches.length then
      30 + ((wordMatches.length : ℚ) / (searchWords.length : ℚ)) * 25
    else 0
  else m2

/-- The search branch: keep items with positive score, sort by descending
    score with name tie break (stable), and strip the scores again. -/
def searchResults (searchLower : String) (items : List Item) : List Item :=
  let matchedItems := items.filterMap (fun it =>
    let ms := computeScore searchLower it
    if 0 < ms then some (it, ms) else none)
  (List.insertionSort searchSortRel matchedItems).map (·.1)

/-- Truthiness of an optional string argument. -/
def optActive : Option String → Bool
  | none => false
  | some s => !(s == "")

/-- The genre filter applies when genre is truthy and does not start with
    All. -/
def genreFilterActive : Option String → Bool
  | none => false
  | some g => !(g == "") && !(startsWithS g "All")

/-- getCatalogItems of the Taksos variant.  Returns the produced listing
    together with the addon state after the call: the no filter branch sorts
    the selected snapshot array in place, so the state it leaves behind is
    part of the behaviour. -/
def getCatalogItems (st : AddonState) (ty : String) (genre search : Option String) :
    List Item × AddonState :=
  let items0 := kindList st ty
  let gAct := genreFilterActive genre
  let items1 :=
    if gAct then items0.filter (fun i => i.category == genre.getD "") else items0
  if optActive search then
    (searchResults (trimS (lowerS (search.getD ""))) items1, st)
  else
    let sorted := List.insertionSort catalogSortRel items1
    (sorted, if gAct then st else updateKind st ty sorted)

/-- getCatalog of the compact variant: genre filter, then a plain substring
    name filter for search; no sorting, no mutation. -/
def getCatalog (st : AddonState) (ty : String) (genre search : Option String) :
    List Item :=
  let list :=
    if ty = "channel" then st.channels
    else if ty = "movie" then st.movies
    else st.series
  let list1 :=
    if genreFilterActive genre then list.filter (fun i => i.category == genre.getD "")
    else list
  match search with
  | some s =>
    if s = "" then list1
    else list1.filter (fun i => containsSubL (lowerL i.name.data) (lowerL s.data))
  | none => list1

/-! ## Stream resolution (addon.js lines 1022 to 1078) -/

/-- The credentials part of the configuration object. -/
structure XtreamConfig where
  xtreamUrl : String
  xtreamUsername : String
  xtreamPassword : String
deriving DecidableEq, Repr

/-- One backend episode record as used by getEpisodeStream: the stream id,
    the episode number and the optional container extension. -/
structure EpisodeRec where
  id : String
  episode_num : Nat
  container_extension : Option String
deriving DecidableEq, Repr

/-- The decoded get_series_info response: an episodes object keyed by season
    number string, when present. -/
structure SeriesInfo where
  episodes : Option (List (String × List EpisodeRec))
deriving DecidableEq, Repr

/-- Property lookup on an object keyed by strings. -/
def assocLookup {β : Type} (l : List (String × β)) (k : String) : Option β :=
  (l.find? (fun p => p.1 == k)).map (·.2)

/-- The deterministically constructed fallback URL for an episode
    (seriesId with the series prefix stripped, then season and episode). -/
def episodeFallbackUrl (cfg : XtreamConfig) (seriesId season episode : String) : String :=
  let actualSeriesId := replaceFirstS seriesId "series_" ""
  cfg.xtreamUrl ++ "/series/" ++ cfg.xtreamUsername ++ "/" ++ cfg.xtreamPassword ++
    "/" ++ actualSeriesId ++ "/" ++ season ++ "/" ++ episode ++ ".mp4"

/-- getEpisodeStream: fetch the series info (the decoded response is passed
    in; none models a failed fetch or decode), look up the season list and
    the matching episode number, and build the URL from the found record;
    every failure falls back to the constructed URL. -/
def getEpisodeStream (cfg : XtreamConfig) (fetchedInfo : Option SeriesInfo)
    (seriesId season episode : String) : String :=
  match fetchedInfo with
  | some seriesInfo =>
    match seriesInfo.episodes with
    | some eps =>
      match assocLookup eps season with
      | some seasonEps =>
        match seasonEps.find? (fun ep => Nat.repr ep.episode_num == episode) with
        | some episodeData =>
          cfg.xtreamUrl ++ "/series/" ++ cfg.xtreamUsername ++ "/" ++
            cfg.xtreamPassword ++ "/" ++ episodeData.id ++ "." ++
            episodeData.container_extension.getD "mp4"
        | none => episodeFallbackUrl cfg seriesId season episode
      | none => episodeFallbackUrl cfg seriesId season episode
    | none => episodeFallbackUrl cfg seriesId season episode
  | none => episodeFallbackUrl cfg seriesId season episode

/-- The stream object handed back to the player. -/
structure StreamResponse where
  url : String
  title : String
deriving DecidableEq, Repr

/-- getStream: episode ids (containing a colon) are split into series id,
    season and episode and resolved through getEpisodeStream after the
    series is found; plain ids are looked up across all three listings.
    null results are modelled by none. -/
def getStream (st : AddonState) (cfg : XtreamConfig) (fetchedInfo : Option SeriesInfo)
    (id : String) : Option StreamResponse :=
  if containsSubS id ":" then
    let parts := (splitChL ':' id.data).map String.mk
    let seriesId := (parts.getD 0 "undefined")
    let season := (parts.getD 1 "undefined")
    let episode := (parts.getD 2 "undefined")
    match st.series.find? (fun s => s.id == seriesId) with
    | none => none
    | some series =>
      some { url := getEpisodeStream cfg fetchedInfo seriesId season episode,
             title := series.name ++ " - S" ++ season ++ "E" ++ episode }
  else
    let allItems := st.channels ++ st.movies ++ st.series
    match allItems.find? (fun i => i.id == id) with
    | none => none
    | some item => some { url := item.url, title := item.name }

/-! ## The loader (loadXtreamData, tryAlternativeFormats, parseM3UContent;
    addon.js lines 308 to 609) -/

/-- A fetch response whose body has been decoded; body none models a body
    decode (json or text) that throws. -/
structure FetchResp (β : Type) where
  ok : Bool
  body : Option β
deriving DecidableEq, Repr

/-- One record of a category table in array form; none models an absent or
    falsy field. -/
structure RawCategory where
  category_id : Option String
  category_name : Option String
deriving DecidableEq, Repr

/-- One record of a category table in object form. -/
structure RawCategoryObj where
  category_name : Option String
  name : Option String
deriving DecidableEq, Repr

/-- A category table response body: array form, object form, or neither. -/
inductive CatBody
  | arr : List RawCategory → CatBody
  | obj : List (String × RawCategoryObj) → CatBody
  | other : CatBody
deriving DecidableEq, Repr

/-- One raw live or VOD stream record. -/
structure RawStream where
  stream_id : String
  name : String
  category_id : Option String
  category : Option String
  group_title : Option String
  container_extension : Option String
deriving DecidableEq, Repr

/-- One raw series record from get_series. -/
structure RawSeries where
  series_id : String
  name : String
  category_id : Option String
  category : Option String
  group_title : Option String
deriving DecidableEq, Repr

/-- The decoded upstream responses consumed by one loadXtreamData run.  An
    outer none models a fetch (or its body decode) that throws; a stream
    list body of none models a JSON value that is not an array. -/
structure XtreamWorld where
  testResp : Option Bool
  liveResp : Option (Option (List RawStream))
  vodResp : Option (Option (List RawStream))
  seriesResp : Option (Option (List RawSeries))
  liveCatResp : Option CatBody
  vodCatResp : Option CatBody
  seriesCatResp : Option CatBody
  m3uResp : Option (FetchResp String)

/-- Object property assignment for the category id to name maps. -/
def objSet : List (String × String) → String → String → List (String × String)
  | [], k, v => [(k, v)]
  | (k', v') :: t, k, v => if k' = k then (k, v) :: t else (k', v') :: objSet t k v

/-- Building a category map from an array form table: records need truthy
    category_id and category_name. -/
def buildCatMapArr (l : List RawCategory) : List (String × String) :=
  l.foldl
    (fun m c =>
      match c.category_id, c.category_name with
      | some i, some n => objSet m i n
      | _, _ => m)
    []

/-- Building a category map from an object form table: values need a truthy
    category_name or name. -/
def buildCatMapObj (l : List (String × RawCategoryObj)) : List (String × String) :=
  l.foldl
    (fun m kv =>
      match kv.2.category_name.orElse (fun _ => kv.2.name) with
      | some n => objSet m kv.1 n
      | none => m)
    []

/-- Category map from a decoded table body. -/
def buildCatMap : CatBody → List (String × String)
  | .arr l => buildCatMapArr l
  | .obj l => buildCatMapObj l
  | .other => []

/-- The category of a raw record: map lookup, then the category and
    group_title fields, then the default. -/
def rawCategoryOf (catMap : List (String × String)) (cid : Option String)
    (cat gt : Option String) (dflt : String) : String :=
  ((((cid.bind (fun i => assocLookup catMap i))).orElse (fun _ => cat)).orElse
    (fun _ => gt)).getD dflt

/-- Mapping one live record to a channel item. -/
def processLiveItem (cfg : XtreamConfig) (catMap : List (String × String))
    (item : RawStream) : Item :=
  { id := "live_" ++ item.stream_id,
    name := item.name,
    url := cfg.xtreamUrl ++ "/live/" ++ cfg.xtreamUsername ++ "/" ++
      cfg.xtreamPassword ++ "/" ++ item.stream_id ++ ".m3u8",
    category := rawCategoryOf catMap item.category_id item.category item.group_title "Live TV" }

/-- Mapping one VOD record to a movie item. -/
def processVodItem (cfg : XtreamConfig) (catMap : List (String × String))
    (item : RawStream) : Item :=
  { id := "vod_" ++ item.stream_id,
    name := item.name,
    url := cfg.xtreamUrl ++ "/movie/" ++ cfg.xtreamUsername ++ "/" ++
      cfg.xtreamPassword ++ "/" ++ item.stream_id ++ "." ++
      (item.container_extension.getD "mp4"),
    category := rawCategoryOf catMap item.category_id item.category item.group_title "Movies" }

/-- Mapping one series record to a series item. -/
def processSeriesItem (cfg : XtreamConfig) (catMap : List (String × String))
    (item : RawSeries) : Item :=
  { id := "series_" ++ item.series_id,
    name := item.name,
    url := cfg.xtreamUrl ++ "/series/" ++ cfg.xtreamUsername ++ "/" ++
      cfg.xtreamPassword ++ "/" ++ item.series_id,
    category := rawCategoryOf catMap item.category_id item.category item.group_title "Series" }

/-- The commonCategories list of extractCategoriesFromContent. -/
def commonCategories : List String :=
  ["Sports", "News", "Movies", "Entertainment", "Kids", "Music", "Documentary"]

/-- The category rewrite of extractCategoriesFromContent for one channel. -/
def extractCategory (name category : String) : String :=
  if category = "" ∨ category = "Live TV" then
    match commonCategories.find?
        (fun cat => containsSubL (lowerL name.data) (lowerL cat.data)) with
    | some cat => cat
    | none => category
  else category

/-- extractCategoriesFromContent: rewrite channel categories in place from
    channel names when the API provided none. -/
def extractCategoriesFromContent (channels : List Item) : List Item :=
  channels.map (fun ch => { ch with category := extractCategory ch.name ch.category })

/-- Distinct category labels of a listing: spread of a Set, filter(Boolean),
    default sort(). -/
def buildCategoryList (items : List Item) : List String :=
  List.insertionSort (fun a b => ordLeZero (localeCompare a b) = true)
    ((dedupGo [] (items.map (·.category))).filter (fun s => !(s == "")))

/-- Outcome of the try block of loadXtreamData: the fresh state on success,
    the early return into tryAlternativeFormats when the probe response is
    not ok, or a thrown error caught by the catch handler. -/
inductive PrimaryResult
  | success : AddonState → PrimaryResult
  | testFailed : PrimaryResult
  | threw : PrimaryResult
deriving DecidableEq

/-- The try block of loadXtreamData: probe, six fetches, category maps,
    record mapping, content based category extraction fallback, category
    lists. -/
def runPrimary (cfg : XtreamConfig) (w : XtreamWorld) (st : AddonState) : PrimaryResult :=
  match w.testResp with
  | none => .threw
  | some testOk =>
    if !testOk then .testFailed
    else
      match w.liveResp, w.vodResp, w.seriesResp with
      | some liveData, some vodData, some seriesData =>
        match w.liveCatResp, w.vodCatResp, w.seriesCatResp with
        | some liveCats, some vodCats, some seriesCats =>
          let liveCatMap := buildCatMap liveCats
          let vodCatMap := buildCatMap vodCats
          let seriesCatMap := buildCatMap seriesCats
          let channels1 :=
            match liveData with
            | some l => l.map (processLiveItem cfg liveCatMap)
            | none => st.channels
          let movies1 :=
            match vodData with
            | some l => l.map (processVodItem cfg vodCatMap)
            | none => st.movies
          let series1 :=
            match seriesData with
            | some l => l.map (processSeriesItem cfg seriesCatMap)
            | none => []
          let channels2 :=
            if liveCatMap.length = 0 ∧ 0 < channels1.length then
              extractCategoriesFromContent channels1
            else channels1
          .success
            { channels := channels2,
              movies := movies1,
              series := series1,
              categories :=
                { live := buildCategoryList channels2,
                  movies := buildCategoryList movies1,
                  series := buildCategoryList series1 } }
        | _, _, _ => .threw
      | _, _, _ => .threw

/-- One parsed EXTINF header waiting for its URL line. -/
structure M3UPending where
  name : String
  category : String
deriving DecidableEq, Repr

/-- Extraction of a quoted attribute value: attr="value" with a nonempty
    value and a closing quote. -/
def extractQuoted (l : List Char) (attr : String) : Option String :=
  match afterSubL l (attr ++ "=\"").data with
  | none => none
  | some rest =>
    let v := rest.takeWhile (fun c => !(c == '"'))
    if v.length = 0 then none
    else if (rest.drop v.length).head? = some '"' then some (String.mk v)
    else none

/-- The name captured by the EXTINF regex: everything after the first comma
    (no comma, no match). -/
def extinfName (l : List Char) : Option String :=
  (afterSubL l [',']).map String.mk

/-- The line loop of parseM3UContent: an EXTINF line opens a pending item,
    the next non comment nonempty line closes it with its URL.  The ids
    argument supplies the random id suffixes (crypto.randomBytes). -/
def parseM3ULoop (ids : Nat → String) :
    List String → Option M3UPending → Nat → List Item
  | [], _, _ => []
  | line :: rest, cur, n =>
    let trimmed := trimS line
    if startsWithS trimmed "#EXTINF:" then
      match extinfName trimmed.data with
      | some name =>
        parseM3ULoop ids rest
          (some { name := name,
                  category := (extractQuoted trimmed.data "group-title").getD "Unknown" })
          n
      | none => parseM3ULoop ids rest cur n
    else if !(trimmed == "") && !(startsWithS trimmed "#") then
      match cur with
      | some p =>
        { id := "m3u_" ++ ids n, name := p.name, url := trimmed,
          category := p.category } :: parseM3ULoop ids rest none (n + 1)
      | none => parseM3ULoop ids rest cur n
    else parseM3ULoop ids rest cur n

/-- parseM3UContent: replace the channels with the parsed playlist and
    rebuild the live category list. -/
def parseM3UContent (st : AddonState) (content : String) (ids : Nat → String) :
    AddonState :=
  let channels := parseM3ULoop ids ((splitChL '\n' content.data).map String.mk) none 0
  { st with
    channels := channels,
    categories := { st.categories with live := buildCategoryList channels } }

/-- tryAlternativeFormats: attempt the M3U playlist format; on success parse
    it, on any failure fall through (the diagnostic endpoint probes in its
    second try block only log and change nothing).  All errors are caught
    inside, so the method always returns normally. -/
def tryAlternativeFormats (_cfg : XtreamConfig) (w : XtreamWorld) (st : AddonState)
    (ids : Nat → String) : AddonState :=
  match w.m3uResp with
  | none => st
  | some r =>
    if r.ok then
      match r.body with
      | some content => parseM3UContent st content ids
      | none => st
    else st

/-- loadXtreamData: consult the cache, otherwise run the primary JSON API
    path and cache its result, falling back to tryAlternativeFormats when
    the probe fails or anything in the try block throws.  The Except layer
    records whether an error escapes to the caller; since every failure is
    caught and the fallback itself swallows its errors, every branch
    produces ok.  The hash argument models the md5 hex digest used in the
    cache key. -/
def loadXtreamData (cfg : XtreamConfig) (hash : String → String) (w : XtreamWorld)
    (st : AddonState) (c : CacheMap AddonState) (now : Int) (ids : Nat → String) :
    Except String (AddonState × CacheMap AddonState) :=
  let cacheKey := "iptv_data_" ++ hash (cfg.xtreamUrl ++ cfg.xtreamUsername)
  match getCachedData c cacheKey now with
  | (some cachedData, c1) =>
    .ok ({ channels := cachedData.channels, movies := cachedData.movies,
           series := cachedData.series, categories := cachedData.categories }, c1)
  | (none, c1) =>
    match runPrimary cfg w st with
    | .success st1 => .ok (st1, setCachedData c1 cacheKey st1 now)
    | .testFailed => .ok (tryAlternativeFormats cfg w st ids, c1)
    | .threw => .ok (tryAlternativeFormats cfg w st ids, c1)

/-- The cache entries produced by a list of set calls in order. -/
def toEntries {α : Type} (items : List (String × α × Int)) : CacheMap α :=
  items.map (fun kv => (kv.1, ⟨kv.2.1, kv.2.2⟩))

/-- Whitespace status of an optional character (of a head? or getLast?). -/
def optWsB : Option Char → Bool
  | none => false
  | some c => isWsCh c

/-- A concrete series item named Breaking Bad S01E01. -/
def c8ItemA : Item := ⟨"s1", "Breaking Bad S01E01", "http://x/1", "Series"⟩

/-- A concrete series item named Breaking News. -/
def c8ItemB : Item := ⟨"s2", "Breaking News", "http://x/2", "Series"⟩

/-- A concrete snapshot holding both items, the weaker match listed first. -/
def c8State : AddonState :=
  { channels := [], movies := [], series := [c8ItemB, c8ItemA],
    categories := ⟨[], [], []⟩ }

/-! ## Cache lemmas -/

theorem mapGet_mapSet_self {α : Type} (m : CacheMap α) (k : String) (v : CacheEntry α) :
    mapGet (mapSet m k v) k = some v := by
  induction m with
  | nil => simp [mapSet, mapGet]
  | cons e t ih =>
    obtain ⟨k', v'⟩ := e
    by_cases hk : k' = k
    · simp [mapSet, hk, mapGet]
    · simp [mapSet, hk, mapGet, ih]

theorem mapGet_mapDelete_ne {α : Type} (m : CacheMap α) (k0 k : String) (h : k0 ≠ k) :
    mapGet (mapDelete m k0) k = mapGet m k := by
  induction m with
  | nil => simp [mapDelete]
  | cons e t ih =>
    obtain ⟨k', v'⟩ := e
    by_cases hk : k' = k0
    · subst hk
      simp [mapDelete, mapGet, h]
    · by_cases hk2 : k' = k
      · simp [mapDelete, hk, mapGet, hk2, Ne.symm h]
      · simp [mapDelete, hk, mapGet, hk2, ih]

theorem length_mapSet {α : Type} (m : CacheMap α) (k : String) (v : CacheEntry α) :
    (mapSet m k v).length = if containsKey m k then m.length else m.length + 1 := by
  induction m with
  | nil => simp [mapSet, containsKey, mapGet]
  | cons e t ih =>
    obtain ⟨k', v'⟩ := e
    by_cases hk : k' = k
    · simp [mapSet, hk, containsKey, mapGet]
    · simp only [mapSet, if_neg hk, List.length_cons, ih, containsKey, mapGet, if_neg hk]
      by_cases hc : containsKey t k
      · simp [containsKey] at hc
        simp [hc]
      · simp [containsKey] at hc
        simp [hc]

theorem mapSet_not_contains {α : Type} (m : CacheMap α) (k : String) (v : CacheEntry α)
    (h : containsKey m k = false) : mapSet m k v = m ++ [(k, v)] := by
  induction m with
  | nil => simp [mapSet]
  | cons e t ih =>
    obtain ⟨k', v'⟩ := e
    simp only [containsKey, mapGet] at h
    by_cases hk : k' = k
    · simp [hk] at h
    · simp only [if_neg hk] at h
      simp [mapSet, hk, ih, containsKey, h]

theorem containsKey_head {α : Type} (m : CacheMap α) (e : String × CacheEntry α)
    (h : m.head? = some e) : containsKey m e.1 = true := by
  cases m with
  | nil => simp at h
  | cons x t =>
    have hx : x = e := by simpa using h
    subst hx
    obtain ⟨k0, v0⟩ := x
    simp [containsKey, mapGet]

theorem mapGet_setCachedData_self {α : Type} (c : CacheMap α) (key : String) (d : α)
    (now : Int) (hlen : c.length ≤ 100) :
    mapGet (setCachedData c key d now) key = some ⟨d, now⟩ := by
  unfold setCachedData
  by_cases hbig : 100 < (mapSet c key ⟨d, now⟩).length
  · have hcon : containsKey c key = false := by
      by_contra hcon
      rw [Bool.not_eq_false] at hcon
      rw [length_mapSet, if_pos hcon] at hbig
      omega
    have happ := mapSet_not_contains c key ⟨d, now⟩ hcon
    have hclen : 100 < c.length + 1 := by
      rw [length_mapSet, if_neg (by simp [hcon])] at hbig
      omega
    have hcne : c ≠ [] := by
      intro h
      subst h
      simp at hclen
    obtain ⟨e, t, hct⟩ : ∃ e t, c = e :: t := by
      cases c with
      | nil => exact absurd rfl hcne
      | cons e t => exact ⟨e, t, rfl⟩
    have hhead : (mapSet c key ⟨d, now⟩).head? = some e := by
      rw [happ, hct]
      simp
    have hene : e.1 ≠ key := by
      intro he
      have := containsKey_head c e (by rw [hct]; simp)
      rw [he] at this
      rw [this] at hcon
      exact Bool.true_eq_false.mp hcon
    simp only [if_pos hbig, hhead]
    rw [mapGet_mapDelete_ne _ _ _ hene]
    exact mapGet_mapSet_self c key ⟨d, now⟩
  · simp only [if_neg hbig]
    exact mapGet_mapSet_self c key ⟨d, now⟩

/-! ## Claim C3 -/

/-- C3: a get performed at the insertion instant returns exactly the stored
    snapshot, and a get performed once the TTL has elapsed reports absence,
    although the entry was never explicitly removed.  The length hypothesis
    is the capacity invariant that setCachedData maintains for the module
    cache. -/
theorem claim_C3_cache_ttl {α : Type} (c : CacheMap α) (key : String) (d : α)
    (now : Int) (hlen : c.length ≤ 100) :
    (getCachedData (setCachedData c key d now) key now).1 = some d ∧
    ∀ now' : Int, CACHE_TTL ≤ now' - now →
      (getCachedData (setCachedData c key d now) key now').1 = none := by
  have hget := mapGet_setCachedData_self c key d now hlen
  constructor
  · unfold getCachedData
    rw [hget]
    have h0 : (0 : Int) < CACHE_TTL := by norm_num [CACHE_TTL]
    simp [h0]
  · intro now' h
    unfold getCachedData
    rw [hget]
    have : ¬ (now' - now < CACHE_TTL) := by omega
    simp [this]

/-- C3 witness: store under a fresh key at time 0; a get at time 0 returns
    the snapshot, and a get thirty minutes later returns absence. -/
theorem claim_C3_cache_ttl_witness :
    (getCachedData (setCachedData ([] : CacheMap Nat) "k" 7 0) "k" 0).1 = some 7 ∧
    (getCachedData (setCachedData ([] : CacheMap Nat) "k" 7 0) "k" 1800000).1 = none := by
  refine ⟨(claim_C3_cache_ttl [] "k" 7 0 (by decide)).1, ?_⟩
  exact (claim_C3_cache_ttl [] "k" 7 0 (by decide)).2 1800000 (by norm_num [CACHE_TTL])

/-! ## Claim C4 -/

theorem containsKey_append {α : Type} (m m' : CacheMap α) (k : String) :
    containsKey (m ++ m') k = (containsKey m k || containsKey m' k) := by
  induction m with
  | nil => simp [containsKey, mapGet]
  | cons e t ih =>
    obtain ⟨k', v'⟩ := e
    by_cases hk : k' = k
    · simp [containsKey, mapGet, hk]
    · simp only [List.cons_append, containsKey, mapGet, if_neg hk]
      exact ih

theorem containsKey_iff_mem {α : Type} (m : CacheMap α) (k : String) :
    containsKey m k = true ↔ k ∈ m.map (·.1) := by
  induction m with
  | nil => simp [containsKey, mapGet]
  | cons e t ih =>
    obtain ⟨k', v'⟩ := e
    by_cases hk : k' = k
    · simp [containsKey, mapGet, hk]
    · simp only [containsKey, mapGet, if_neg hk, List.map_cons, List.mem_cons]
      rw [← containsKey]
      rw [ih]
      constructor
      · exact Or.inr
      · rintro (h | h)
        · exact absurd h.symm hk
        · exact h

theorem mapGet_eq_none_of_not_mem {α : Type} (m : CacheMap α) (k : String)
    (h : k ∉ m.map (·.1)) : mapGet m k = none := by
  rcases hm : mapGet m k with _ | v
  · rfl
  · exfalso
    apply h
    rw [← containsKey_iff_mem]
    simp [containsKey, hm]

theorem insertAll_append {α : Type} (x y : List (String × α × Int)) (c : CacheMap α) :
    insertAll (x ++ y) c = insertAll y (insertAll x c) := by
  unfold insertAll
  exact List.foldl_append _ _ _ _

theorem keys_toEntries {α : Type} (items : List (String × α × Int)) :
    (toEntries items).map (·.1) = items.map (·.1) := by
  unfold toEntries
  rw [List.map_map]
  rfl

theorem insertAll_fresh {α : Type} (items : List (String × α × Int)) (c : CacheMap α)
    (hnd : (items.map (·.1)).Nodup)
    (hfresh : ∀ k ∈ items.map (·.1), containsKey c k = false)
    (hlen : c.length + items.length ≤ 100) :
    insertAll items c = c ++ toEntries items := by
  induction items generalizing c with
  | nil => simp [insertAll, toEntries]
  | cons kv rest ih =>
    obtain ⟨k, d, t⟩ := kv
    have hc : containsKey c k = false := hfresh k (by simp)
    have hcond : ¬ 100 < (c ++ [(k, (⟨d, t⟩ : CacheEntry α))]).length := by
      simp only [List.length_append, List.length_cons, List.length_nil]
      simp only [List.length_cons] at hlen
      omega
    have hset : setCachedData c k d t = c ++ [(k, ⟨d, t⟩)] := by
      simp only [setCachedData]
      rw [mapSet_not_contains c k _ hc, if_neg hcond]
    have step : insertAll ((k, d, t) :: rest) c = insertAll rest (setCachedData c k d t) := by
      simp [insertAll]
    rw [step, hset]
    have hnd' : (rest.map (·.1)).Nodup := by
      simp only [List.map_cons, List.nodup_cons] at hnd
      exact hnd.2
    have hkfresh : k ∉ rest.map (·.1) := by
      simp only [List.map_cons, List.nodup_cons] at hnd
      exact hnd.1
    have hfresh' : ∀ k' ∈ rest.map (·.1), containsKey (c ++ [(k, ⟨d, t⟩)]) k' = false := by
      intro k' hk'
      rw [containsKey_append]
      have h1 : containsKey c k' = false := hfresh k' (by simp [hk'])
      have h2 : containsKey [(k, (⟨d, t⟩ : CacheEntry α))] k' = false := by
        have hne : k ≠ k' := fun h => hkfresh (h ▸ hk')
        simp [containsKey, mapGet, hne]
      rw [h1, h2]
      rfl
    have hlen' : (c ++ [(k, (⟨d, t⟩ : CacheEntry α))]).length + rest.length ≤ 100 := by
      simp only [List.length_append, List.length_cons, List.length_nil]
      simp only [List.length_cons] at hlen
      omega
    rw [ih _ hnd' hfresh' hlen']
    simp [toEntries]

theorem insertAll_overflow {α : Type} (items : List (String × α × Int))
    (hnd : (items.map (·.1)).Nodup) (hlen : items.length = 101) :
    insertAll items [] = toEntries (items.drop 1) := by
  obtain ⟨last, initRev, hrev⟩ : ∃ a t, items.reverse = a :: t := by
    cases hr : items.reverse with
    | nil =>
      have := congrArg List.length hr
      simp [hlen] at this
    | cons a t => exact ⟨a, t, rfl⟩
  have hitems : items = initRev.reverse ++ [last] := by
    rw [← List.reverse_reverse items, hrev]
    simp
  set init := initRev.reverse with hinit
  have hinitlen : init.length = 100 := by
    have := congrArg List.length hitems
    simp only [List.length_append, List.length_cons, List.length_nil, hlen] at this
    omega
  have hkeys : (items.map (·.1)) = init.map (·.1) ++ [last.1] := by
    rw [hitems]
    simp
  have hndsplit := List.nodup_append.mp (hkeys ▸ hnd)
  have hndinit : (init.map (·.1)).Nodup := hndsplit.1
  have hE : insertAll init [] = toEntries init := by
    have := insertAll_fresh init [] hndinit (by intro k _; rfl) (by simp [hinitlen])
    simpa using this
  have hsplit : insertAll items [] = insertAll [last] (insertAll init []) := by
    rw [hitems, insertAll_append]
  rw [hsplit, hE]
  obtain ⟨ka, da, ta⟩ := last
  have hkanotin : ka ∉ init.map (·.1) := by
    intro hmem
    exact hndsplit.2.2 hmem (by simp)
  have hconka : containsKey (toEntries init) ka = false := by
    rw [Bool.eq_false_iff]
    intro hc
    have hmem := (containsKey_iff_mem _ _).mp hc
    rw [keys_toEntries] at hmem
    exact hkanotin hmem
  have hlenE : (toEntries init).length = 100 := by
    unfold toEntries
    simp [hinitlen]
  obtain ⟨e0, T, hET⟩ : ∃ e t, toEntries init = e :: t := by
    cases hE2 : toEntries init with
    | nil => rw [hE2] at hlenE; simp at hlenE
    | cons e t => exact ⟨e, t, rfl⟩
  have hstep : insertAll [(ka, da, ta)] (toEntries init) = T ++ [(ka, ⟨da, ta⟩)] := by
    simp only [insertAll, List.foldl_cons, List.foldl_nil]
    simp only [setCachedData]
    rw [mapSet_not_contains _ _ _ hconka]
    have hbig : 100 < (toEntries init ++ [(ka, (⟨da, ta⟩ : CacheEntry α))]).length := by
      simp [hlenE]
    rw [if_pos hbig, hET]
    obtain ⟨k0, v0⟩ := e0
    simp [mapDelete]
  rw [hstep]
  have hdrop : items.drop 1 = init.drop 1 ++ [(ka, da, ta)] := by
    rw [hitems]
    cases hI : init with
    | nil => rw [hI] at hinitlen; simp at hinitlen
    | cons i0 it => simp
  rw [hdrop]
  have hTdrop : T = toEntries (init.drop 1) := by
    cases hI : init with
    | nil => rw [hI] at hinitlen; simp at hinitlen
    | cons i0 it =>
      rw [hI] at hET
      unfold toEntries at hET ⊢
      simp only [List.map_cons, List.cons.injEq] at hET
      simp [hET.2]
  rw [hTdrop]
  unfold toEntries
  simp

/-- C4: starting from the empty cache, after 101 set calls under pairwise
    distinct keys exactly 100 entries remain; the first inserted key is the
    one evicted, every later key is still present.  (The configured maximum
    of the code is 100.) -/
theorem claim_C4_capacity {α : Type} (items : List (String × α × Int))
    (hnd : (items.map (·.1)).Nodup) (hlen : items.length = 101) :
    (insertAll items []).length = 100 ∧
    (∀ k0, (items.head?.map (·.1)) = some k0 → mapGet (insertAll items []) k0 = none) ∧
    (∀ k ∈ (items.map (·.1)).drop 1, containsKey (insertAll items []) k = true) := by
  have hmain := insertAll_overflow items hnd hlen
  have hkeysdrop : (insertAll items []).map (·.1) = (items.map (·.1)).drop 1 := by
    rw [hmain, keys_toEntries, List.map_drop]
  refine ⟨?_, ?_, ?_⟩
  · rw [hmain]
    unfold toEntries
    simp [hlen]
  · intro k0 hk0
    apply mapGet_eq_none_of_not_mem
    rw [hkeysdrop]
    obtain ⟨i0, rest, hi⟩ : ∃ a t, items = a :: t := by
      cases hc : items with
      | nil => rw [hc] at hlen; simp at hlen
      | cons a t => exact ⟨a, t, rfl⟩
    rw [hi] at hk0
    simp at hk0
    rw [hi]
    simp only [List.map_cons, List.drop_succ_cons, List.drop_zero]
    rw [hi] at hnd
    simp only [List.map_cons, List.nodup_cons] at hnd
    rw [← hk0]
    exact hnd.1
  · intro k hk
    rw [(containsKey_iff_mem _ _), hkeysdrop]
    exact hk

/-- C4 witness: 101 distinct numeric keys inserted into the empty cache; 100
    entries remain, key 0 is gone, key 1 is still present. -/
theorem claim_C4_capacity_witness :
    (insertAll ((List.range 101).map (fun n => (Nat.repr n, n, (0 : Int)))) []).length = 100 ∧
    mapGet (insertAll ((List.range 101).map (fun n => (Nat.repr n, n, (0 : Int)))) []) "0" = none ∧
    containsKey (insertAll ((List.range 101).map (fun n => (Nat.repr n, n, (0 : Int)))) []) "1" = true := by
  have h := claim_C4_capacity ((List.range 101).map (fun n => (Nat.repr n, n, (0 : Int))))
    (by decide) (by decide)
  exact ⟨h.1, h.2.1 "0" (by decide), h.2.2 "1" (by decide)⟩

/-! ## Order properties of the comparators -/

theorem cmpChars_eq_iff (a b : List Char) : cmpChars a b = .eq ↔ a = b := by
  induction a generalizing b with
  | nil =>
    cases b with
    | nil => simp [cmpChars]
    | cons y ys => simp [cmpChars]
  | cons x xs ih =>
    cases b with
    | nil => simp [cmpChars]
    | cons y ys =>
      by_cases h1 : x < y
      · simp [cmpChars, h1]
        intro he
        exact absurd he (ne_of_lt h1)
      · by_cases h2 : y < x
        · simp [cmpChars, h1, h2]
          intro he
          exact absurd he.symm (ne_of_lt h2)
        · have hxy : x = y := le_antisymm (not_lt.mp h2) (not_lt.mp h1)
          simp [cmpChars, h1, h2, hxy, ih]

theorem cmpChars_swap (a b : List Char) : cmpChars b a = (cmpChars a b).swap := by
  induction a generalizing b with
  | nil =>
    cases b with
    | nil => rfl
    | cons y ys => rfl
  | cons x xs ih =>
    cases b with
    | nil => rfl
    | cons y ys =>
      by_cases h1 : x < y
      · simp [cmpChars, h1, not_lt.mpr (le_of_lt h1), not_lt_of_gt h1, Ordering.swap]
      · by_cases h2 : y < x
        · simp [cmpChars, h1, h2, Ordering.swap]
        · simp [cmpChars, h1, h2, ih]

theorem cmpChars_ngt_trans (a b c : List Char)
    (hab : cmpChars a b ≠ .gt) (hbc : cmpChars b c ≠ .gt) : cmpChars a c ≠ .gt := by
  induction a generalizing b c with
  | nil =>
    cases c with
    | nil => simp [cmpChars]
    | cons z zs => simp [cmpChars]
  | cons x xs ih =>
    cases b with
    | nil => simp [cmpChars] at hab
    | cons y ys =>
      cases c with
      | nil => simp [cmpChars] at hbc
      | cons z zs =>
        by_cases hxy : x < y
        · by_cases hyz : y < z
          · have : x < z := lt_trans hxy hyz
            simp [cmpChars, this]
          · by_cases hzy : z < y
            · simp [cmpChars, hyz, hzy] at hbc
            · have hy : y = z := le_antisymm (not_lt.mp hzy) (not_lt.mp hyz)
              subst hy
              simp [cmpChars, hxy]
        · by_cases hyx : y < x
          · simp [cmpChars, hxy, hyx] at hab
          · have hx : x = y := le_antisymm (not_lt.mp hyx) (not_lt.mp hxy)
            subst hx
            simp only [cmpChars, if_neg hxy, if_neg hyx] at hab
            by_cases hyz : x < z
            · simp [cmpChars, hyz]
            · by_cases hzy : z < x
              · simp [cmpChars, hyz, hzy] at hbc
              · have hz : x = z := le_antisymm (not_lt.mp hzy) (not_lt.mp hyz)
                subst hz
                simp only [cmpChars, if_neg hyz, if_neg hzy] at hbc ⊢
                exact ih ys zs hab hbc

theorem cmpChars_ngt_total (a b : List Char) :
    cmpChars a b ≠ .gt ∨ cmpChars b a ≠ .gt := by
  rcases h : cmpChars a b with _ | _ | _
  · left; simp [h]
  · left; simp [h]
  · right
    rw [cmpChars_swap, h]
    simp [Ordering.swap]

theorem cmpChars_ngt_antisymm (a b : List Char)
    (hab : cmpChars a b ≠ .gt) (hba : cmpChars b a ≠ .gt) : a = b := by
  rw [← cmpChars_eq_iff]
  rcases h : cmpChars a b with _ | _ | _
  · rw [cmpChars_swap, h] at hba
    simp [Ordering.swap] at hba
  · rfl
  · exact absurd h hab

theorem ordLeZero_iff (o : Ordering) : ordLeZero o = true ↔ o ≠ .gt := by
  cases o <;> simp [ordLeZero]

instance : IsTrans Item catalogSortRel where
  trans := by
    intro a b c hab hbc
    unfold catalogSortRel catalogSortLe at *
    by_cases h1 : a.category = b.category
    · by_cases h2 : b.category = c.category
      · have h3 : a.category = c.category := h1.trans h2
        rw [if_pos h1] at hab
        rw [if_pos h2] at hbc
        rw [if_pos h3]
        rw [ordLeZero_iff] at *
        exact cmpChars_ngt_trans _ _ _ hab hbc
      · have h3 : a.category ≠ c.category := h1 ▸ h2
        rw [if_pos h1] at hab
        rw [if_neg h2] at hbc
        rw [if_neg h3]
        unfold localeCompare at *
        rw [ordLeZero_iff] at *
        rw [show a.category = b.category from h1]
        exact hbc
    · by_cases h2 : b.category = c.category
      · have h3 : a.category ≠ c.category := fun h => h1 (h.trans h2.symm)
        rw [if_neg h1] at hab
        rw [if_neg h3]
        rw [show c.category = b.category from h2.symm]
        exact hab
      · rw [if_neg h1] at hab
        rw [if_neg h2] at hbc
        rw [ordLeZero_iff] at hab hbc
        unfold localeCompare at hab hbc
        by_cases h3 : a.category = c.category
        · exfalso
          apply h1
          apply String.ext
          apply cmpChars_ngt_antisymm
          · exact hab
          · rw [← h3] at hbc
            exact hbc
        · rw [if_neg h3, ordLeZero_iff]
          unfold localeCompare
          exact cmpChars_ngt_trans _ _ _ hab hbc

instance : IsTotal Item catalogSortRel where
  total := by
    intro a b
    unfold catalogSortRel catalogSortLe
    by_cases h1 : a.category = b.category
    · rw [if_pos h1, if_pos h1.symm]
      rw [ordLeZero_iff, ordLeZero_iff]
      unfold localeCompare
      exact cmpChars_ngt_total _ _
    · rw [if_neg h1, if_neg (Ne.symm h1)]
      rw [ordLeZero_iff, ordLeZero_iff]
      unfold localeCompare
      exact cmpChars_ngt_total _ _

theorem searchSortRel_score_le {p q : Item × ℚ} (h : searchSortRel p q) : q.2 ≤ p.2 := by
  unfold searchSortRel searchSortLe at h
  by_cases he : q.2 = p.2
  · exact le_of_eq he
  · rw [if_neg he] at h
    have := of_decide_eq_true h
    linarith

instance : IsTrans (Item × ℚ) searchSortRel where
  trans := by
    intro p q r hpq hqr
    have h1 : q.2 ≤ p.2 := searchSortRel_score_le hpq
    have h2 : r.2 ≤ q.2 := searchSortRel_score_le hqr
    unfold searchSortRel searchSortLe at *
    by_cases he : r.2 = p.2
    · have heq : q.2 = p.2 := le_antisymm (by linarith) (by rw [← he] at h1 ⊢; linarith)
      have heq2 : r.2 = q.2 := by rw [he, heq]
      rw [if_pos heq] at hpq
      rw [if_pos heq2] at hqr
      rw [if_pos he]
      rw [ordLeZero_iff] at *
      unfold localeCompare at *
      exact cmpChars_ngt_trans _ _ _ hpq hqr
    · rw [if_neg he]
      exact decide_eq_true (by linarith)

instance : IsTotal (Item × ℚ) searchSortRel where
  total := by
    intro p q
    unfold searchSortRel searchSortLe
    by_cases he : q.2 = p.2
    · rw [if_pos he, if_pos he.symm]
      rw [ordLeZero_iff, ordLeZero_iff]
      unfold localeCompare
      exact cmpChars_ngt_total _ _
    · rw [if_neg he, if_neg (Ne.symm he)]
      rcases le_total q.2 p.2 with h | h
      · left; exact decide_eq_true (by linarith)
      · right; exact decide_eq_true (by linarith)

/-! ## Claims C5, C7, C9: catalog queries -/

theorem getCatalogItems_snd (st : AddonState) (ty : String) (genre search : Option String) :
    (getCatalogItems st ty genre search).2 =
      if optActive search then st
      else if genreFilterActive genre then st
      else updateKind st ty (List.insertionSort catalogSortRel
        (kindList st ty)) := by
  unfold getCatalogItems
  by_cases hs : optActive search
  · simp [hs]
  · by_cases hg : genreFilterActive genre
    · simp [hs, hg]
    · simp [hs, hg]

theorem getCatalogItems_fst_nosearch (st : AddonState) (ty : String)
    (genre search : Option String) (hs : optActive search = false)
    (hg : genreFilterActive genre = false) :
    (getCatalogItems st ty genre search).1 =
      List.insertionSort catalogSortRel (kindList st ty) := by
  unfold getCatalogItems
  simp [hs, hg]

theorem updateKind_unknown (st : AddonState) (ty : String) (l : List Item)
    (h1 : ty ≠ "tv") (h2 : ty ≠ "movie") (h3 : ty ≠ "series") :
    updateKind st ty l = st := by
  unfold updateKind
  simp [h1, h2, h3]

theorem kindList_updateKind_self (st : AddonState) (ty : String) (l : List Item)
    (h : ty = "tv" ∨ ty = "movie" ∨ ty = "series") :
    kindList (updateKind st ty l) ty = l := by
  rcases h with h | h | h <;> subst h <;> simp [kindList, updateKind]

/-- C7 (amended): with no category filter and no search text, the Taksos
    getCatalogItems returns the full listing of the requested kind but
    reordered: a permutation of the stored listing sorted by category and
    then by name, not the stored backend order; the compact variant
    getCatalog does return the stored order unchanged. -/
theorem claim_C7_full_listing (st : AddonState) (ty : String) :
    (getCatalogItems st ty none none).1.Perm (kindList st ty) ∧
    List.Sorted catalogSortRel (getCatalogItems st ty none none).1 ∧
    getCatalog st "channel" none none = st.channels ∧
    getCatalog st "movie" none none = st.movies ∧
    getCatalog st "series" none none = st.series := by
  have hfst := getCatalogItems_fst_nosearch st ty none none rfl rfl
  refine ⟨?_, ?_, rfl, rfl, rfl⟩
  · rw [hfst]
    exact List.perm_insertionSort _ _
  · rw [hfst]
    exact List.sorted_insertionSort _ _

/-- C7 counterexample: a snapshot whose channels are stored as B before A
    (same category) comes back from the unfiltered catalog query as A before
    B, not in stored backend order. -/
theorem claim_C7_counterexample :
    (getCatalogItems
      { channels := [{ id := "live_2", name := "B", url := "u2", category := "X" },
                     { id := "live_1", name := "A", url := "u1", category := "X" }],
        movies := [], series := [],
        categories := { live := [], movies := [], series := [] } } "tv" none none).1 ≠
      [{ id := "live_2", name := "B", url := "u2", category := "X" },
       { id := "live_1", name := "A", url := "u1", category := "X" }] := by
  decide

/-- C5 (amended): a query with an active category filter or an active search
    text leaves the addon state untouched; the unfiltered listing query
    however re-sorts the stored snapshot array of the requested kind in
    place.  In every case the state afterwards holds a permutation of the
    same item values per kind (no item field is modified) and the category
    lists are untouched. -/
theorem claim_C5_snapshot_frame (st : AddonState) (ty : String)
    (genre search : Option String) :
    (genreFilterActive genre = true ∨ optActive search = true →
      (getCatalogItems st ty genre search).2 = st) ∧
    ((getCatalogItems st ty genre search).2.channels.Perm st.channels ∧
     (getCatalogItems st ty genre search).2.movies.Perm st.movies ∧
     (getCatalogItems st ty genre search).2.series.Perm st.series ∧
     (getCatalogItems st ty genre search).2.categories = st.categories) := by
  rw [getCatalogItems_snd]
  by_cases hs : optActive search
  · simp only [hs, if_true]
    exact ⟨fun _ => trivial, List.Perm.refl _, List.Perm.refl _, List.Perm.refl _, by trivial⟩
  · simp only [hs, Bool.false_eq_true, if_false]
    by_cases hg : genreFilterActive genre
    · simp only [hg, if_true]
      exact ⟨fun _ => trivial, List.Perm.refl _, List.Perm.refl _, List.Perm.refl _, by trivial⟩
    · simp only [hg, Bool.false_eq_true, if_false]
      constructor
      · rintro (h | h)
        · exact absurd h (by simp [hg])
        · exact absurd h (by simp [hs])
      · by_cases h1 : ty = "tv"
        · subst h1
          refine ⟨?_, List.Perm.refl _, List.Perm.refl _, rfl⟩
          simpa [updateKind, kindList] using List.perm_insertionSort catalogSortRel st.channels
        · by_cases h2 : ty = "movie"
          · subst h2
            refine ⟨List.Perm.refl _, ?_, List.Perm.refl _, rfl⟩
            simpa [updateKind, kindList] using List.perm_insertionSort catalogSortRel st.movies
          · by_cases h3 : ty = "series"
            · subst h3
              refine ⟨List.Perm.refl _, List.Perm.refl _, ?_, rfl⟩
              simpa [updateKind, kindList] using List.perm_insertionSort catalogSortRel st.series
            · rw [updateKind_unknown st ty _ h1 h2 h3]
              exact ⟨List.Perm.refl _, List.Perm.refl _, List.Perm.refl _, rfl⟩

/-- C5 witness: with an active genre filter the state is unchanged, and the
    per kind contents are (trivially) permutations of themselves. -/
theorem claim_C5_snapshot_frame_witness :
    (genreFilterActive (some "X") = true ∨ optActive none = true →
      (getCatalogItems
        { channels := [{ id := "live_1", name := "A", url := "u1", category := "X" }],
          movies := [], series := [],
          categories := { live := [], movies := [], series := [] } } "tv" (some "X") none).2 =
        { channels := [{ id := "live_1", name := "A", url := "u1", category := "X" }],
          movies := [], series := [],
          categories := { live := [], movies := [], series := [] } }) ∧
    ((getCatalogItems
        { channels := [{ id := "live_1", name := "A", url := "u1", category := "X" }],
          movies := [], series := [],
          categories := { live := [], movies := [], series := [] } } "tv" (some "X") none).2.channels.Perm
        [{ id := "live_1", name := "A", url := "u1", category := "X" }] ∧
     (getCatalogItems
        { channels := [{ id := "live_1", name := "A", url := "u1", category := "X" }],
          movies := [], series := [],
          categories := { live := [], movies := [], series := [] } } "tv" (some "X") none).2.movies.Perm [] ∧
     (getCatalogItems
        { channels := [{ id := "live_1", name := "A", url := "u1", category := "X" }],
          movies := [], series := [],
          categories := { live := [], movies := [], series := [] } } "tv" (some "X") none).2.series.Perm [] ∧
     (getCatalogItems
        { channels := [{ id := "live_1", name := "A", url := "u1", category := "X" }],
          movies := [], series := [],
          categories := { live := [], movies := [], series := [] } } "tv" (some "X") none).2.categories =
       { live := [], movies := [], series := [] }) :=
  claim_C5_snapshot_frame _ "tv" (some "X") none

/-- C5 counterexample: the unfiltered listing query mutates the snapshot in
    place: after the call the addon state differs from the state before it
    (the channels array has been reordered). -/
theorem claim_C5_counterexample :
    (getCatalogItems
      { channels := [{ id := "live_2", name := "B", url := "u2", category := "X" },
                     { id := "live_1", name := "A", url := "u1", category := "X" }],
        movies := [], series := [],
        categories := { live := [], movies := [], series := [] } } "tv" none none).2 ≠
      { channels := [{ id := "live_2", name := "B", url := "u2", category := "X" },
                     { id := "live_1", name := "A", url := "u1", category := "X" }],
        movies := [], series := [],
        categories := { live := [], movies := [], series := [] } } := by
  decide

/-- C9: the catalog query is deterministic: equal snapshots and equal
    arguments give equal ordered results, and a repeated query (run on the
    state the first call leaves behind) returns the identical ordered
    result again. -/
theorem claim_C9_determinism (st1 st2 : AddonState) (ty : String)
    (genre search : Option String) (h : st1 = st2) :
    (getCatalogItems st1 ty genre search).1 = (getCatalogItems st2 ty genre search).1 ∧
    (getCatalogItems (getCatalogItems st1 ty genre search).2 ty genre search).1 =
      (getCatalogItems st1 ty genre search).1 := by
  subst h
  refine ⟨rfl, ?_⟩
  rw [getCatalogItems_snd]
  by_cases hs : optActive search
  · simp [hs]
  · simp only [hs, Bool.false_eq_true, if_false]
    by_cases hg : genreFilterActive genre
    · simp [hg]
    · simp only [hg, Bool.false_eq_true, if_false]
      rw [getCatalogItems_fst_nosearch _ _ _ _ (by simp [hs]) (by simp [hg]),
        getCatalogItems_fst_nosearch _ _ _ _ (by simp [hs]) (by simp [hg])]
      by_cases hk : ty = "tv" ∨ ty = "movie" ∨ ty = "series"
      · rw [kindList_updateKind_self _ _ _ hk]
        exact List.Sorted.insertionSort_eq (List.sorted_insertionSort _ _)
      · push_neg at hk
        rw [updateKind_unknown _ _ _ hk.1 hk.2.1 hk.2.2]

/-- C9 witness: a query run twice in sequence on a concrete snapshot returns
    the same ordered result. -/
theorem claim_C9_determinism_witness :
    (getCatalogItems
      { channels := [{ id := "live_2", name := "B", url := "u2", category := "X" },
                     { id := "live_1", name := "A", url := "u1", category := "X" }],
        movies := [], series := [],
        categories := { live := [], movies := [], series := [] } } "tv" none none).1 =
      (getCatalogItems
        { channels := [{ id := "live_2", name := "B", url := "u2", category := "X" },
                       { id := "live_1", name := "A", url := "u1", category := "X" }],
          movies := [], series := [],
          categories := { live := [], movies := [], series := [] } } "tv" none none).1 ∧
    (getCatalogItems
      (getCatalogItems
        { channels := [{ id := "live_2", name := "B", url := "u2", category := "X" },
                       { id := "live_1", name := "A", url := "u1", category := "X" }],
          movies := [], series := [],
          categories := { live := [], movies := [], series := [] } } "tv" none none).2
      "tv" none none).1 =
      (getCatalogItems
        { channels := [{ id := "live_2", name := "B", url := "u2", category := "X" },
                       { id := "live_1", name := "A", url := "u1", category := "X" }],
          movies := [], series := [],
          categories := { live := [], movies := [], series := [] } } "tv" none none).1 :=
  claim_C9_determinism _ _ "tv" none none rfl

/-! ## Character case mapping lemmas -/

theorem char_toNat_inj {a b : Char} (h : a.toNat = b.toNat) : a = b :=
  Char.ext (UInt32.ext h)

theorem toNat_toLower (c : Char) :
    (Char.toLower c).toNat =
      if 65 ≤ c.toNat ∧ c.toNat ≤ 90 then c.toNat + 32 else c.toNat := by
  simp only [Char.toLower]
  by_cases h : 65 ≤ c.toNat ∧ c.toNat ≤ 90
  · rw [if_pos ⟨h.1, h.2⟩, if_pos h]
    have hv : (c.toNat + 32).isValidChar := Or.inl (by omega)
    rw [Char.ofNat, dif_pos hv]
    simp [Char.ofNatAux, Char.toNat, UInt32.toNat, UInt32.ofNatCore]
  · rw [if_neg (fun hc => h ⟨hc.1, hc.2⟩), if_neg h]

theorem toNat_toUpper (c : Char) :
    (Char.toUpper c).toNat =
      if 97 ≤ c.toNat ∧ c.toNat ≤ 122 then c.toNat - 32 else c.toNat := by
  simp only [Char.toUpper]
  by_cases h : 97 ≤ c.toNat ∧ c.toNat ≤ 122
  · rw [if_pos ⟨h.1, h.2⟩, if_pos h]
    have hv : (c.toNat - 32).isValidChar := Or.inl (by omega)
    rw [Char.ofNat, dif_pos hv]
    simp [Char.ofNatAux, Char.toNat, UInt32.toNat, UInt32.ofNatCore]
  · rw [if_neg (fun hc => h ⟨hc.1, hc.2⟩), if_neg h]

theorem isWsCh_iff_toNat (c : Char) :
    isWsCh c = true ↔ (c.toNat = 32 ∨ c.toNat = 9 ∨ c.toNat = 13 ∨ c.toNat = 10) := by
  have h32 : (c = ' ') ↔ c.toNat = 32 :=
    ⟨fun h => by subst h; rfl, fun h => char_toNat_inj (by simpa using h)⟩
  have h9 : (c = '\t') ↔ c.toNat = 9 :=
    ⟨fun h => by subst h; rfl, fun h => char_toNat_inj (by simpa using h)⟩
  have h13 : (c = '\x0d') ↔ c.toNat = 13 :=
    ⟨fun h => by subst h; rfl, fun h => char_toNat_inj (by simpa using h)⟩
  have h10 : (c = '\n') ↔ c.toNat = 10 :=
    ⟨fun h => by subst h; rfl, fun h => char_toNat_inj (by simpa using h)⟩
  simp only [isWsCh, Char.isWhitespace, Bool.or_eq_true, decide_eq_true_eq]
  rw [h32, h9, h13, h10]
  tauto

theorem isWs_lowerCh (c : Char) : isWsCh (lowerCh c) = isWsCh c := by
  have hl := toNat_toLower c
  by_cases hws : isWsCh c = true
  · have hn := (isWsCh_iff_toNat c).mp hws
    have : (Char.toLower c).toNat = c.toNat := by
      rw [hl, if_neg]
      omega
    rw [hws]
    rw [(isWsCh_iff_toNat _)]
    unfold lowerCh
    omega
  · rw [Bool.not_eq_true] at hws
    rw [hws]
    have hn : ¬ (c.toNat = 32 ∨ c.toNat = 9 ∨ c.toNat = 13 ∨ c.toNat = 10) := by
      intro h
      rw [← Bool.not_eq_true, isWsCh_iff_toNat] at hws
      exact hws h
    rw [← Bool.not_eq_true, isWsCh_iff_toNat]
    unfold lowerCh
    rw [hl]
    by_cases hr : 65 ≤ c.toNat ∧ c.toNat ≤ 90
    · rw [if_pos hr]
      omega
    · rw [if_neg hr]
      omega

theorem isWs_upperCh (c : Char) : isWsCh (upperCh c) = isWsCh c := by
  have hl := toNat_toUpper c
  by_cases hws : isWsCh c = true
  · have hn := (isWsCh_iff_toNat c).mp hws
    rw [hws, (isWsCh_iff_toNat _)]
    unfold upperCh
    rw [hl, if_neg (by omega)]
    omega
  · rw [Bool.not_eq_true] at hws
    rw [hws]
    have hn : ¬ (c.toNat = 32 ∨ c.toNat = 9 ∨ c.toNat = 13 ∨ c.toNat = 10) := by
      intro h
      rw [← Bool.not_eq_true, isWsCh_iff_toNat] at hws
      exact hws h
    rw [← Bool.not_eq_true, isWsCh_iff_toNat]
    unfold upperCh
    rw [hl]
    by_cases hr : 97 ≤ c.toNat ∧ c.toNat ≤ 122
    · rw [if_pos hr]
      omega
    · rw [if_neg hr]
      omega

theorem lowerCh_space_iff (c : Char) : lowerCh c = ' ' ↔ c = ' ' := by
  constructor
  · intro h
    have := congrArg Char.toNat h
    rw [show Char.toNat ' ' = 32 from rfl] at this
    unfold lowerCh at this
    rw [toNat_toLower] at this
    apply char_toNat_inj
    rw [show Char.toNat ' ' = 32 from rfl]
    by_cases hr : 65 ≤ c.toNat ∧ c.toNat ≤ 90
    · rw [if_pos hr] at this
      omega
    · rw [if_neg hr] at this
      omega
  · intro h
    subst h
    decide

theorem upperCh_space_iff (c : Char) : upperCh c = ' ' ↔ c = ' ' := by
  constructor
  · intro h
    have := congrArg Char.toNat h
    rw [show Char.toNat ' ' = 32 from rfl] at this
    unfold upperCh at this
    rw [toNat_toUpper] at this
    apply char_toNat_inj
    rw [show Char.toNat ' ' = 32 from rfl]
    by_cases hr : 97 ≤ c.toNat ∧ c.toNat ≤ 122
    · rw [if_pos hr] at this
      omega
    · rw [if_neg hr] at this
      omega
  · intro h
    subst h
    decide

theorem lowerCh_lowerCh (c : Char) : lowerCh (lowerCh c) = lowerCh c := by
  apply char_toNat_inj
  have h1 := toNat_toLower c
  have h2 := toNat_toLower (Char.toLower c)
  unfold lowerCh
  by_cases hr : 65 ≤ c.toNat ∧ c.toNat ≤ 90
  · rw [if_pos hr] at h1
    rw [h1, if_neg (by omega)] at h2
    omega
  · rw [if_neg hr] at h1
    rw [h1, if_neg hr] at h2
    omega

theorem lowerCh_upperCh (c : Char) : lowerCh (upperCh c) = lowerCh c := by
  apply char_toNat_inj
  have h1 := toNat_toUpper c
  have h2 := toNat_toLower (Char.toUpper c)
  have h3 := toNat_toLower c
  unfold lowerCh upperCh
  by_cases hr : 97 ≤ c.toNat ∧ c.toNat ≤ 122
  · rw [if_pos hr] at h1
    rw [h1, if_pos (by omega)] at h2
    rw [if_neg (by omega)] at h3
    omega
  · rw [if_neg hr] at h1
    rw [h1] at h2
    by_cases hr2 : 65 ≤ c.toNat ∧ c.toNat ≤ 90
    · rw [if_pos hr2] at h2
      rw [if_pos hr2] at h3
      omega
    · rw [if_neg hr2] at h2
      rw [if_neg hr2] at h3
      omega

theorem upperCh_upperCh (c : Char) : upperCh (upperCh c) = upperCh c := by
  apply char_toNat_inj
  have h1 := toNat_toUpper c
  have h2 := toNat_toUpper (Char.toUpper c)
  unfold upperCh
  by_cases hr : 97 ≤ c.toNat ∧ c.toNat ≤ 122
  · rw [if_pos hr] at h1
    rw [h1, if_neg (by omega)] at h2
    omega
  · rw [if_neg hr] at h1
    rw [h1, if_neg hr] at h2
    omega

/-! ## List level lemmas about the string primitives -/

theorem lowerL_lowerL (l : List Char) : lowerL (lowerL l) = lowerL l := by
  unfold lowerL
  rw [List.map_map]
  apply List.map_congr_left
  intro c _
  exact lowerCh_lowerCh c

theorem trimL_lowerL (l : List Char) : trimL (lowerL l) = lowerL (trimL l) := by
  unfold trimL lowerL
  have hws : (isWsCh ∘ lowerCh) = isWsCh := funext (fun c => isWs_lowerCh c)
  rw [List.dropWhile_map, hws, ← List.map_reverse, List.dropWhile_map, hws,
    ← List.map_reverse]

theorem splitSpL_ne_nil (l : List Char) : splitSpL l ≠ [] := by
  cases l with
  | nil => simp [splitSpL]
  | cons c cs =>
    unfold splitSpL
    by_cases h : c = ' '
    · simp [h]
    · simp only [if_neg h]
      rcases hs : splitSpL cs with _ | ⟨w, ws⟩
      · simp
      · simp

theorem splitSpL_cons (c : Char) (cs : List Char) :
    splitSpL (c :: cs) =
      if c = ' ' then [] :: splitSpL cs
      else
        match splitSpL cs with
        | [] => [[c]]
        | w :: ws => (c :: w) :: ws := rfl

theorem splitSpL_lowerL (l : List Char) : splitSpL (lowerL l) = (splitSpL l).map lowerL := by
  induction l with
  | nil => rfl
  | cons c cs ih =>
    have hstep : splitSpL (lowerL (c :: cs)) = splitSpL (lowerCh c :: lowerL cs) := rfl
    rw [hstep]
    by_cases h : c = ' '
    · have hlc : lowerCh c = ' ' := (lowerCh_space_iff c).mpr h
      rw [splitSpL_cons, if_pos hlc, splitSpL_cons, if_pos h, List.map_cons, ih]
      rfl
    · have hlc : lowerCh c ≠ ' ' := fun hc => h ((lowerCh_space_iff c).mp hc)
      rcases hs : splitSpL cs with _ | ⟨w, ws⟩
      · exact absurd hs (splitSpL_ne_nil cs)
      · have hsl : splitSpL (lowerL cs) = lowerL w :: List.map lowerL ws := by
          rw [ih, hs, List.map_cons]
        rw [splitSpL_cons, if_neg hlc, hsl, splitSpL_cons, if_neg h, hs, List.map_cons]
        rfl

theorem lowerL_joinSpL (ws : List (List Char)) :
    lowerL (joinSpL ws) = joinSpL (ws.map lowerL) := by
  induction ws with
  | nil => rfl
  | cons w rest ih =>
    cases rest with
    | nil => rfl
    | cons w' rest' =>
      show lowerL (w ++ ' ' :: joinSpL (w' :: rest')) = _
      rw [show (w :: w' :: rest').map lowerL = lowerL w :: (w' :: rest').map lowerL from rfl]
      show _ = lowerL w ++ ' ' :: joinSpL ((w' :: rest').map lowerL)
      rw [← ih]
      unfold lowerL
      simp [lowerCh_space_iff]

theorem lowerL_capWordL (w : List Char) : lowerL (capWordL w) = lowerL w := by
  cases w with
  | nil => rfl
  | cons c cs =>
    show lowerCh (upperCh c) :: lowerL (lowerL cs) = lowerCh c :: lowerL cs
    rw [lowerCh_upperCh, lowerL_lowerL]

theorem joinSpL_splitSpL (l : List Char) : joinSpL (splitSpL l) = l := by
  induction l with
  | nil => rfl
  | cons c cs ih =>
    by_cases h : c = ' '
    · subst h
      rw [splitSpL_cons, if_pos rfl]
      rcases hs : splitSpL cs with _ | ⟨w, ws⟩
      · exact absurd hs (splitSpL_ne_nil cs)
      · rw [hs] at ih
        show [] ++ ' ' :: joinSpL (w :: ws) = ' ' :: cs
        rw [ih]
        rfl
    · rw [splitSpL_cons, if_neg h]
      rcases hs : splitSpL cs with _ | ⟨w, ws⟩
      · exact absurd hs (splitSpL_ne_nil cs)
      · rw [hs] at ih
        have hj : joinSpL ((c :: w) :: ws) = c :: joinSpL (w :: ws) := by
          cases ws with
          | nil => rfl
          | cons w2 ws2 => rfl
        rw [hj, ih]

/-! ## Trim lemmas -/

theorem dropWhile_idem {α : Type} (p : α → Bool) (l : List α) :
    List.dropWhile p (List.dropWhile p l) = List.dropWhile p l := by
  induction l with
  | nil => rfl
  | cons c cs ih =>
    by_cases h : p c
    · rw [List.dropWhile_cons_of_pos h, ih]
    · rw [List.dropWhile_cons_of_neg (by simpa using h),
        List.dropWhile_cons_of_neg (by simpa using h)]

theorem dropWhile_eq_self_of_head {α : Type} (p : α → Bool) (l : List α)
    (h : ∀ c, l.head? = some c → p c = false) : List.dropWhile p l = l := by
  cases l with
  | nil => rfl
  | cons c cs =>
    have hc : p c = false := h c rfl
    rw [List.dropWhile_cons_of_neg (by simp [hc])]

theorem head?_dropWhile_false {α : Type} (p : α → Bool) (l : List α) (c : α)
    (h : (List.dropWhile p l).head? = some c) : p c = false := by
  induction l with
  | nil => simp [List.dropWhile] at h
  | cons x xs ih =>
    by_cases hx : p x
    · rw [List.dropWhile_cons_of_pos hx] at h
      exact ih h
    · rw [List.dropWhile_cons_of_neg (by simpa using hx)] at h
      simp at h
      subst h
      simpa using hx

theorem getLast?_dropWhile_of_ne_nil {α : Type} (p : α → Bool) (l : List α)
    (h : List.dropWhile p l ≠ []) :
    (List.dropWhile p l).getLast? = l.getLast? := by
  obtain ⟨pre, hpre⟩ := (List.dropWhile_suffix p (l := l))
  conv_rhs => rw [← hpre]
  rw [List.getLast?_append]
  rcases hg : (List.dropWhile p l).getLast? with _ | c
  · exfalso
    apply h
    cases hdp : List.dropWhile p l with
    | nil => rfl
    | cons a t =>
      rw [hdp] at hg
      rw [List.getLast?_eq_getLast _ (by simp)] at hg
      simp at hg
  · rfl

theorem head?_trimL_false (l : List Char) (c : Char)
    (h : (trimL l).head? = some c) : isWsCh c = false := by
  unfold trimL at h
  rw [List.head?_reverse] at h
  have hne : List.dropWhile isWsCh (List.dropWhile isWsCh l).reverse ≠ [] := by
    intro hnil
    rw [hnil] at h
    simp at h
  rw [getLast?_dropWhile_of_ne_nil _ _ hne, List.getLast?_reverse] at h
  exact head?_dropWhile_false _ _ _ h

theorem getLast?_trimL_false (l : List Char) (c : Char)
    (h : (trimL l).getLast? = some c) : isWsCh c = false := by
  unfold trimL at h
  rw [List.getLast?_reverse] at h
  exact head?_dropWhile_false _ _ _ h

theorem trimL_trimL (l : List Char) : trimL (trimL l) = trimL l := by
  unfold trimL
  set A := List.dropWhile isWsCh l with hA
  set B := List.dropWhile isWsCh A.reverse with hB
  have hBfront : List.dropWhile isWsCh B.reverse = B.reverse := by
    apply dropWhile_eq_self_of_head
    intro c hc
    rw [List.head?_reverse] at hc
    have hBne : B ≠ [] := by
      intro hnil
      rw [hnil] at hc
      simp at hc
    rw [hB, getLast?_dropWhile_of_ne_nil _ _ (hB ▸ hBne), List.getLast?_reverse] at hc
    exact head?_dropWhile_false _ _ _ hc
  rw [hBfront, List.reverse_reverse]
  rw [show List.dropWhile isWsCh B = B from by rw [hB]; exact dropWhile_idem _ _]

/-! ## Title case lemmas -/

theorem space_not_mem_splitSpL (l : List Char) : ∀ w ∈ splitSpL l, ' ' ∉ w := by
  induction l with
  | nil =>
    intro w hw
    simp [splitSpL] at hw
    simp [hw]
  | cons c cs ih =>
    intro w hw
    by_cases h : c = ' '
    · rw [splitSpL_cons, if_pos h, List.mem_cons] at hw
      rcases hw with hw | hw
      · simp [hw]
      · exact ih w hw
    · rcases hs : splitSpL cs with _ | ⟨w0, ws⟩
      · exact absurd hs (splitSpL_ne_nil cs)
      · rw [splitSpL_cons, if_neg h, hs, List.mem_cons] at hw
        rcases hw with hw | hw
        · subst hw
          intro hmem
          rw [List.mem_cons] at hmem
          rcases hmem with hmem | hmem
          · exact h hmem.symm
          · exact ih w0 (by rw [hs]; exact List.mem_cons_self _ _) hmem
        · exact ih w (by rw [hs]; exact List.mem_cons_of_mem _ hw)

theorem splitSpL_space_free (w : List Char) (h : ' ' ∉ w) : splitSpL w = [w] := by
  induction w with
  | nil => rfl
  | cons c cs ih =>
    have hc : c ≠ ' ' := fun hc => h (by simp [hc])
    rw [splitSpL_cons, if_neg hc, ih (fun hm => h (by simp [hm]))]

theorem splitSpL_append_space (w rest : List Char) (h : ' ' ∉ w) :
    splitSpL (w ++ ' ' :: rest) = w :: splitSpL rest := by
  induction w with
  | nil =>
    rw [List.nil_append, splitSpL_cons, if_pos rfl]
  | cons c cs ih =>
    have hc : c ≠ ' ' := fun hc => h (by simp [hc])
    rw [List.cons_append, splitSpL_cons, if_neg hc,
      ih (fun hm => h (by simp [hm]))]

theorem splitSpL_joinSpL (ws : List (List Char)) (hne : ws ≠ [])
    (hfree : ∀ w ∈ ws, ' ' ∉ w) : splitSpL (joinSpL ws) = ws := by
  induction ws with
  | nil => exact absurd rfl hne
  | cons w rest ih =>
    cases rest with
    | nil =>
      show splitSpL w = [w]
      exact splitSpL_space_free w (hfree w (by simp))
    | cons w' rest' =>
      show splitSpL (w ++ ' ' :: joinSpL (w' :: rest')) = _
      rw [splitSpL_append_space _ _ (hfree w (by simp))]
      rw [ih (by simp) (fun x hx => hfree x (by simp [hx]))]

theorem space_not_mem_capWordL (w : List Char) (h : ' ' ∉ w) : ' ' ∉ capWordL w := by
  cases w with
  | nil => simp [capWordL]
  | cons c cs =>
    intro hmem
    rw [show capWordL (c :: cs) = upperCh c :: lowerL cs from rfl, List.mem_cons] at hmem
    rcases hmem with hmem | hmem
    · apply h
      rw [show c = ' ' from (upperCh_space_iff c).mp hmem.symm]
      exact List.mem_cons_self _ _
    · unfold lowerL at hmem
      obtain ⟨x, hx, hlx⟩ := List.mem_map.mp hmem
      have hxsp : x = ' ' := (lowerCh_space_iff x).mp hlx
      apply h
      rw [← hxsp]
      exact List.mem_cons_of_mem _ hx

theorem capWordL_capWordL (w : List Char) : capWordL (capWordL w) = capWordL w := by
  cases w with
  | nil => rfl
  | cons c cs =>
    show upperCh (upperCh c) :: lowerL (lowerL cs) = upperCh c :: lowerL cs
    rw [upperCh_upperCh, lowerL_lowerL]

theorem optWs_getLast?_lowerL (m : List Char) :
    optWsB (lowerL m).getLast? = optWsB m.getLast? := by
  unfold lowerL
  rw [List.getLast?_map]
  rcases hg : m.getLast? with _ | c
  · rfl
  · simp [optWsB, isWs_lowerCh]

theorem optWs_getLast?_capWordL (w : List Char) :
    optWsB (capWordL w).getLast? = optWsB w.getLast? := by
  cases w with
  | nil => rfl
  | cons c cs =>
    cases cs with
    | nil => simp [capWordL, lowerL, optWsB, isWs_upperCh]
    | cons d ds =>
      show optWsB (upperCh c :: lowerL (d :: ds)).getLast? = _
      rw [show lowerL (d :: ds) = lowerCh d :: lowerL ds from rfl]
      rw [List.getLast?_cons_cons, List.getLast?_cons_cons]
      rw [show lowerCh d :: lowerL ds = lowerL (d :: ds) from rfl]
      exact optWs_getLast?_lowerL (d :: ds)

theorem capWordL_eq_nil_iff (w : List Char) : capWordL w = [] ↔ w = [] := by
  cases w with
  | nil => simp [capWordL]
  | cons c cs => simp [capWordL]

theorem joinSpL_map_capWordL_eq_nil_iff (ws : List (List Char)) :
    joinSpL (ws.map capWordL) = [] ↔ joinSpL ws = [] := by
  cases ws with
  | nil => simp [joinSpL]
  | cons w rest =>
    cases rest with
    | nil =>
      show capWordL w = [] ↔ w = []
      exact capWordL_eq_nil_iff w
    | cons w' rest' =>
      show capWordL w ++ ' ' :: joinSpL ((w' :: rest').map capWordL) = [] ↔
        w ++ ' ' :: joinSpL (w' :: rest') = []
      simp

theorem getLast?_cons_of_ne_nil {α : Type} (x : α) (r : List α) (h : r ≠ []) :
    (x :: r).getLast? = r.getLast? := by
  cases r with
  | nil => exact absurd rfl h
  | cons y ys => exact List.getLast?_cons_cons

theorem getLast?_append_cons {α : Type} (x : List α) (y : α) (R : List α) :
    (x ++ y :: R).getLast? = (y :: R).getLast? := by
  rw [List.getLast?_append, List.getLast?_eq_getLast (y :: R) (by simp)]
  rfl

theorem optWs_getLast?_joinSpL_capWordL (ws : List (List Char)) :
    optWsB (joinSpL (ws.map capWordL)).getLast? = optWsB (joinSpL ws).getLast? := by
  induction ws with
  | nil => rfl
  | cons w rest ih =>
    cases rest with
    | nil => exact optWs_getLast?_capWordL w
    | cons w' rest' =>
      show optWsB (capWordL w ++ ' ' :: joinSpL ((w' :: rest').map capWordL)).getLast? =
        optWsB (w ++ ' ' :: joinSpL (w' :: rest')).getLast?
      rw [getLast?_append_cons, getLast?_append_cons]
      rcases h2 : joinSpL (w' :: rest') with _ | ⟨z, zs⟩
      · rw [(joinSpL_map_capWordL_eq_nil_iff _).mpr h2]
      · have h1ne : joinSpL ((w' :: rest').map capWordL) ≠ [] := by
          intro hnil
          rw [(joinSpL_map_capWordL_eq_nil_iff _).mp hnil] at h2
          simp at h2
        rw [getLast?_cons_of_ne_nil ' ' _ h1ne,
          getLast?_cons_of_ne_nil ' ' (z :: zs) (by simp)]
        rw [h2] at ih
        exact ih

theorem head?_titleCaseL_false (l : List Char) (c : Char)
    (h : (titleCaseL l).head? = some c) : isWsCh c = false := by
  unfold titleCaseL at h
  rcases ht : trimL l with _ | ⟨c0, m⟩
  · rw [ht] at h
    simp [splitSpL, capWordL, joinSpL] at h
  · have hc0 : isWsCh c0 = false := head?_trimL_false l c0 (by rw [ht]; rfl)
    have hc0sp : c0 ≠ ' ' := by
      intro hsp
      rw [hsp] at hc0
      simp [isWsCh] at hc0
    rw [ht, splitSpL_cons, if_neg hc0sp] at h
    rcases hs : splitSpL m with _ | ⟨w, ws⟩
    · exact absurd hs (splitSpL_ne_nil m)
    · rw [hs] at h
      have hhead : (joinSpL (((c0 :: w) :: ws).map capWordL)).head? = some (upperCh c0) := by
        rw [show ((c0 :: w) :: ws).map capWordL =
          (upperCh c0 :: lowerL w) :: ws.map capWordL from rfl]
        cases hws : ws.map capWordL with
        | nil => rfl
        | cons a as => rfl
      rw [hhead] at h
      have : c = upperCh c0 := by simpa using h.symm
      rw [this, isWs_upperCh]
      exact hc0

theorem getLast?_titleCaseL_false (l : List Char) (c : Char)
    (h : (titleCaseL l).getLast? = some c) : isWsCh c = false := by
  have hstat := optWs_getLast?_joinSpL_capWordL (splitSpL (trimL l))
  rw [joinSpL_splitSpL] at hstat
  unfold titleCaseL at h
  rw [h] at hstat
  rcases hg : (trimL l).getLast? with _ | c2
  · rw [hg] at hstat
    simpa [optWsB] using hstat
  · rw [hg] at hstat
    have hc2 := getLast?_trimL_false l c2 hg
    simp only [optWsB] at hstat
    rw [hc2] at hstat
    exact hstat

theorem trimL_titleCaseL (l : List Char) : trimL (titleCaseL l) = titleCaseL l := by
  unfold trimL
  rw [dropWhile_eq_self_of_head isWsCh (titleCaseL l)
    (fun c hc => head?_titleCaseL_false l c hc)]
  rw [dropWhile_eq_self_of_head isWsCh (titleCaseL l).reverse
    (fun c hc => getLast?_titleCaseL_false l c (by rw [← List.head?_reverse]; exact hc))]
  exact List.reverse_reverse _

theorem titleCaseL_titleCaseL (l : List Char) : titleCaseL (titleCaseL l) = titleCaseL l := by
  rcases ht : trimL l with _ | ⟨c0, m⟩
  · have hnil : titleCaseL l = [] := by
      unfold titleCaseL
      rw [ht]
      rfl
    rw [hnil]
    rfl
  · have hW : splitSpL (titleCaseL l) = (splitSpL (trimL l)).map capWordL := by
      conv_lhs => rw [show titleCaseL l = joinSpL ((splitSpL (trimL l)).map capWordL) from rfl]
      apply splitSpL_joinSpL
      · simp [splitSpL_ne_nil]
      · intro w hw
        obtain ⟨w0, hw0, hww⟩ := List.mem_map.mp hw
        rw [← hww]
        exact space_not_mem_capWordL w0 (space_not_mem_splitSpL (trimL l) w0 hw0)
    show joinSpL ((splitSpL (trimL (titleCaseL l))).map capWordL) = titleCaseL l
    rw [trimL_titleCaseL, hW, List.map_map]
    have : (capWordL ∘ capWordL) = capWordL := funext capWordL_capWordL
    rw [this]
    rfl

theorem lowerL_titleCaseL (l : List Char) : lowerL (titleCaseL l) = lowerL (trimL l) := by
  unfold titleCaseL
  rw [lowerL_joinSpL, List.map_map]
  have : (lowerL ∘ capWordL) = lowerL := funext lowerL_capWordL
  rw [this, ← splitSpL_lowerL, joinSpL_splitSpL]

theorem keyL_titleCaseL (l : List Char) :
    trimL (lowerL (titleCaseL l)) = trimL (lowerL l) := by
  rw [lowerL_titleCaseL, trimL_lowerL, trimL_trimL, ← trimL_lowerL]

/-! ## Claims C10 and C6: category normalization -/

theorem table_values_fixed : ∀ p ∈ CATEGORY_MAPPINGS, normalizeCategory p.2 = p.2 := by
  decide

theorem normalizeCategory_fixed_or_empty (y : String) :
    normalizeCategory (normalizeCategory y) = normalizeCategory y ∨
      normalizeCategory y = "" := by
  by_cases hy : y = ""
  · left
    subst hy
    decide
  · rcases hl : lookupMapping (trimS (lowerS y)) with _ | v
    · have hny : normalizeCategory y = titleCaseS y := by
        unfold normalizeCategory
        rw [if_neg hy, hl]
      by_cases htc : titleCaseL y.data = []
      · right
        rw [hny]
        unfold titleCaseS
        rw [htc]
      · left
        rw [hny]
        have hne : titleCaseS y ≠ "" := by
          intro hniltc
          apply htc
          have := congrArg String.data hniltc
          simpa [titleCaseS] using this
        have hkey : trimS (lowerS (titleCaseS y)) = trimS (lowerS y) := by
          apply String.ext
          show trimL (lowerL (titleCaseL y.data)) = trimL (lowerL y.data)
          exact keyL_titleCaseL y.data
        unfold normalizeCategory
        rw [if_neg hne, hkey, hl]
        unfold titleCaseS
        show String.mk (titleCaseL (titleCaseL y.data)) = String.mk (titleCaseL y.data)
        rw [titleCaseL_titleCaseL]
    · have hny : normalizeCategory y = v := by
        unfold normalizeCategory
        rw [if_neg hy, hl]
      left
      rw [hny]
      obtain ⟨p, hfind, hp2⟩ : ∃ p, CATEGORY_MAPPINGS.find?
          (fun p => p.1 == trimS (lowerS y)) = some p ∧ p.2 = v := by
        unfold lookupMapping at hl
        rcases hf : CATEGORY_MAPPINGS.find? (fun p => p.1 == trimS (lowerS y)) with _ | p
        · rw [hf] at hl
          simp at hl
        · rw [hf] at hl
          simp at hl
          exact ⟨p, hf, hl⟩
      have hpmem := List.mem_of_find?_eq_some hfind
      rw [← hp2]
      exact table_values_fixed p hpmem

/-- C10: normalization is idempotent on canonical output: whenever x is a
    possible output of normalizeCategory, applying normalizeCategory to x
    again does not change normalizeCategory x. -/
theorem claim_C10_normalize_idem (x y : String) (h : normalizeCategory y = x) :
    normalizeCategory (normalizeCategory x) = normalizeCategory x := by
  rcases normalizeCategory_fixed_or_empty y with hf | he
  · rw [h] at hf
    rw [hf, hf]
  · rw [h] at he
    subst he
    decide

/-- C10 witness: Sports is canonical (it is the image of Sport), and
    normalization is stable on it. -/
theorem claim_C10_normalize_idem_witness :
    normalizeCategory "Sport" = "Sports" ∧
    normalizeCategory (normalizeCategory "Sports") = normalizeCategory "Sports" :=
  ⟨by decide, claim_C10_normalize_idem "Sports" "Sport" (by decide)⟩

/-- C6 counterexample: for the label sports news, which contains the known
    key sports, the spec algorithm (substring scan) yields Sports, but the
    code performs no substring scan and title cases the label to
    Sports News instead. -/
theorem claim_C6_counterexample :
    normalizeCategory "sports news" = "Sports News" ∧
    specNormalizeCategory "sports news" = "Sports" ∧
    normalizeCategory "sports news" ≠ specNormalizeCategory "sports news" := by
  refine ⟨by decide, by decide, by decide⟩

/-- C6 (amended): normalizeCategory lower cases and trims its input and
    looks it up in the fixed synonym table; when there is no exact match it
    title cases the original label word by word directly — there is no
    substring containment scan (and the empty label maps to Other). -/
theorem claim_C6_normalize_algorithm (rawLabel : String) :
    normalizeCategory rawLabel = specNormalizeExact rawLabel := rfl

/-! ## Claim C2: episode resolution -/

/-- C2 (amended): for a series whose backend records for season 1 are three
    episodes numbered 1, 2 and 3, resolving series_5:1:2 yields the playback
    URL built from the second record (its stream id and container
    extension); resolving series_5:1:9, an episode absent from the records,
    does not fail: it yields the deterministically constructed fallback URL
    for season 1 episode 9, and in particular does not report a missing
    stream (null). -/
theorem claim_C2_episode_resolution (cfg : XtreamConfig) (st : AddonState)
    (series : Item) (e1 e2 e3 : EpisodeRec) (si : SeriesInfo)
    (hfind : st.series.find? (fun s => s.id == "series_5") = some series)
    (heps : si.episodes = some [("1", [e1, e2, e3])])
    (h1 : e1.episode_num = 1) (h2 : e2.episode_num = 2) (h3 : e3.episode_num = 3) :
    getStream st cfg (some si) "series_5:1:2" =
      some { url := cfg.xtreamUrl ++ "/series/" ++ cfg.xtreamUsername ++ "/" ++
               cfg.xtreamPassword ++ "/" ++ e2.id ++ "." ++
               e2.container_extension.getD "mp4",
             title := series.name ++ " - S" ++ "1" ++ "E" ++ "2" } ∧
    getStream st cfg (some si) "series_5:1:9" =
      some { url := episodeFallbackUrl cfg "series_5" "1" "9",
             title := series.name ++ " - S" ++ "1" ++ "E" ++ "9" } ∧
    getStream st cfg (some si) "series_5:1:9" ≠ none := by
  obtain ⟨eps⟩ := si
  have heps' : eps = some [("1", [e1, e2, e3])] := heps
  subst heps'
  have hlook : assocLookup [("1", [e1, e2, e3])] "1" = some [e1, e2, e3] := rfl
  have r12 : (Nat.repr 1 == "2") = false := by decide
  have r22 : (Nat.repr 2 == "2") = true := by decide
  have r19 : (Nat.repr 1 == "9") = false := by decide
  have r29 : (Nat.repr 2 == "9") = false := by decide
  have r39 : (Nat.repr 3 == "9") = false := by decide
  have hf2 : [e1, e2, e3].find? (fun ep => Nat.repr ep.episode_num == "2") = some e2 := by
    simp only [List.find?, h1, h2, r12, r22]
  have hf9 : [e1, e2, e3].find? (fun ep => Nat.repr ep.episode_num == "9") = none := by
    simp only [List.find?, h1, h2, h3, r19, r29, r39]
  have hget2 : getEpisodeStream cfg
      (some { episodes := some [("1", [e1, e2, e3])] }) "series_5" "1" "2" =
      cfg.xtreamUrl ++ "/series/" ++ cfg.xtreamUsername ++ "/" ++ cfg.xtreamPassword ++
        "/" ++ e2.id ++ "." ++ e2.container_extension.getD "mp4" := by
    unfold getEpisodeStream
    simp only [hlook, hf2]
  have hget9 : getEpisodeStream cfg
      (some { episodes := some [("1", [e1, e2, e3])] }) "series_5" "1" "9" =
      episodeFallbackUrl cfg "series_5" "1" "9" := by
    unfold getEpisodeStream
    simp only [hlook, hf9]
  have hparts2 : ((splitChL ':' ("series_5:1:2".data)).map String.mk) =
      ["series_5", "1", "2"] := by decide
  have hparts9 : ((splitChL ':' ("series_5:1:9".data)).map String.mk) =
      ["series_5", "1", "9"] := by decide
  have hg20 : (["series_5", "1", "2"] : List String).getD 0 "undefined" = "series_5" := rfl
  have hg21 : (["series_5", "1", "2"] : List String).getD 1 "undefined" = "1" := rfl
  have hg22 : (["series_5", "1", "2"] : List String).getD 2 "undefined" = "2" := rfl
  have hg90 : (["series_5", "1", "9"] : List String).getD 0 "undefined" = "series_5" := rfl
  have hg91 : (["series_5", "1", "9"] : List String).getD 1 "undefined" = "1" := rfl
  have hg92 : (["series_5", "1", "9"] : List String).getD 2 "undefined" = "9" := rfl
  refine ⟨?_, ?_, ?_⟩
  · unfold getStream
    rw [if_pos (by decide)]
    rw [hparts2]
    dsimp only
    rw [hg20, hg21, hg22, hfind, hget2]
  · unfold getStream
    rw [if_pos (by decide)]
    rw [hparts9]
    dsimp only
    rw [hg90, hg91, hg92, hfind, hget9]
  · unfold getStream
    rw [if_pos (by decide)]
    rw [hparts9]
    dsimp only
    rw [hg90, hg91, hg92, hfind]
    simp

/-- C2 witness: a concrete configuration and series with season 1 episodes
    1, 2 and 3; episode 2 resolves to the URL of the second record and
    episode 9 to the constructed fallback URL. -/
theorem claim_C2_episode_resolution_witness :
    getStream
      { channels := [], movies := [],
        series := [{ id := "series_5", name := "Show", url := "u", category := "C" }],
        categories := { live := [], movies := [], series := [] } }
      { xtreamUrl := "http://h", xtreamUsername := "u", xtreamPassword := "p" }
      (some { episodes := some [("1",
        [{ id := "101", episode_num := 1, container_extension := none },
         { id := "102", episode_num := 2, container_extension := some "mkv" },
         { id := "103", episode_num := 3, container_extension := none }])] })
      "series_5:1:2" =
      some { url := "http://h" ++ "/series/" ++ "u" ++ "/" ++ "p" ++ "/" ++ "102" ++
               "." ++ (some "mkv").getD "mp4",
             title := "Show" ++ " - S" ++ "1" ++ "E" ++ "2" } ∧
    getStream
      { channels := [], movies := [],
        series := [{ id := "series_5", name := "Show", url := "u", category := "C" }],
        categories := { live := [], movies := [], series := [] } }
      { xtreamUrl := "http://h", xtreamUsername := "u", xtreamPassword := "p" }
      (some { episodes := some [("1",
        [{ id := "101", episode_num := 1, container_extension := none },
         { id := "102", episode_num := 2, container_extension := some "mkv" },
         { id := "103", episode_num := 3, container_extension := none }])] })
      "series_5:1:9" =
      some { url := episodeFallbackUrl
               { xtreamUrl := "http://h", xtreamUsername := "u", xtreamPassword := "p" }
               "series_5" "1" "9",
             title := "Show" ++ " - S" ++ "1" ++ "E" ++ "9" } ∧
    getStream
      { channels := [], movies := [],
        series := [{ id := "series_5", name := "Show", url := "u", category := "C" }],
        categories := { live := [], movies := [], series := [] } }
      { xtreamUrl := "http://h", xtreamUsername := "u", xtreamPassword := "p" }
      (some { episodes := some [("1",
        [{ id := "101", episode_num := 1, container_extension := none },
         { id := "102", episode_num := 2, container_extension := some "mkv" },
         { id := "103", episode_num := 3, container_extension := none }])] })
      "series_5:1:9" ≠ none :=
  claim_C2_episode_resolution
    { xtreamUrl := "http://h", xtreamUsername := "u", xtreamPassword := "p" }
    { channels := [], movies := [],
      series := [{ id := "series_5", name := "Show", url := "u", category := "C" }],
      categories := { live := [], movies := [], series := [] } }
    { id := "series_5", name := "Show", url := "u", category := "C" }
    { id := "101", episode_num := 1, container_extension := none }
    { id := "102", episode_num := 2, container_extension := some "mkv" }
    { id := "103", episode_num := 3, container_extension := none }
    { episodes := some [("1",
      [{ id := "101", episode_num := 1, container_extension := none },
       { id := "102", episode_num := 2, container_extension := some "mkv" },
       { id := "103", episode_num := 3, container_extension := none }])] }
    (by decide) rfl rfl rfl rfl

/-- C2 counterexample: resolving an episode that is absent from the backend
    records (season 1 episode 9 of a series with episodes 1 to 3) does not
    report a missing stream: the resolver hands back a stream object with
    the constructed fallback URL instead of failing. -/
theorem claim_C2_counterexample :
    getStream
      { channels := [], movies := [],
        series := [{ id := "series_5", name := "Show", url := "u", category := "C" }],
        categories := { live := [], movies := [], series := [] } }
      { xtreamUrl := "http://h", xtreamUsername := "u", xtreamPassword := "p" }
      (some { episodes := some [("1",
        [{ id := "101", episode_num := 1, container_extension := none },
         { id := "102", episode_num := 2, container_extension := some "mkv" },
         { id := "103", episode_num := 3, container_extension := none }])] })
      "series_5:1:9" =
      some { url := "http://h/series/u/p/5/1/9.mp4", title := "Show - S1E9" } := by
  decide

/-! ## Claim C1: load failure -/

theorem mapGet_mapDelete_self {α : Type} (m : CacheMap α) (k : String)
    (hnd : (m.map (·.1)).Nodup) : mapGet (mapDelete m k) k = none := by
  induction m with
  | nil => rfl
  | cons e t ih =>
    obtain ⟨k', v'⟩ := e
    simp only [List.map_cons, List.nodup_cons] at hnd
    by_cases hk : k' = k
    · subst hk
      rw [show mapDelete ((k', v') :: t) k' = t from by simp [mapDelete]]
      exact mapGet_eq_none_of_not_mem t k' hnd.1
    · rw [show mapDelete ((k', v') :: t) k = (k', v') :: mapDelete t k from by
        simp [mapDelete, hk]]
      rw [show mapGet ((k', v') :: mapDelete t k) k = mapGet (mapDelete t k) k from by
        simp [mapGet, hk]]
      exact ih hnd.2

theorem getCachedData_none_snd {α : Type} (c : CacheMap α) (key : String) (now : Int)
    (h : (getCachedData c key now).1 = none) :
    (getCachedData c key now).2 = mapDelete c key := by
  unfold getCachedData at h ⊢
  rcases hm : mapGet c key with _ | e
  · rfl
  · rw [hm] at h
    by_cases ht : now - e.timestamp < CACHE_TTL
    · simp [ht] at h
    · simp [ht]

theorem tryAlternativeFormats_failed (cfg : XtreamConfig) (w : XtreamWorld)
    (st : AddonState) (ids : Nat → String)
    (hm3u : w.m3uResp = none ∨ ∃ r, w.m3uResp = some r ∧ r.ok = false) :
    tryAlternativeFormats cfg w st ids = st := by
  unfold tryAlternativeFormats
  rcases hm3u with h | ⟨r, hr, hok⟩
  · rw [h]
  · rw [hr]
    simp [hok]

/-- C1 (amended): when the cache has no fresh entry for the configuration
    key and both the primary JSON API retrieval and the M3U playlist
    fallback fail, loadXtreamData does not raise at all: every error is
    caught and swallowed, the call returns normally with the addon state it
    started from, and the cache afterwards contains no entry for that key
    (UpstreamError never reaches the caller).  The Nodup hypothesis is the
    key uniqueness invariant of the JS Map. -/
theorem claim_C1_load_failure (cfg : XtreamConfig) (hash : String → String)
    (w : XtreamWorld) (st : AddonState) (c : CacheMap AddonState) (now : Int)
    (ids : Nat → String)
    (hnd : (c.map (·.1)).Nodup)
    (hmiss : (getCachedData c ("iptv_data_" ++ hash (cfg.xtreamUrl ++ cfg.xtreamUsername)) now).1 = none)
    (hprimary : runPrimary cfg w st = .testFailed ∨ runPrimary cfg w st = .threw)
    (hm3u : w.m3uResp = none ∨ ∃ r, w.m3uResp = some r ∧ r.ok = false) :
    loadXtreamData cfg hash w st c now ids =
      .ok (st, mapDelete c ("iptv_data_" ++ hash (cfg.xtreamUrl ++ cfg.xtreamUsername))) ∧
    mapGet (mapDelete c ("iptv_data_" ++ hash (cfg.xtreamUrl ++ cfg.xtreamUsername)))
      ("iptv_data_" ++ hash (cfg.xtreamUrl ++ cfg.xtreamUsername)) = none := by
  have hpair : getCachedData c ("iptv_data_" ++ hash (cfg.xtreamUrl ++ cfg.xtreamUsername)) now =
      (none, mapDelete c ("iptv_data_" ++ hash (cfg.xtreamUrl ++ cfg.xtreamUsername))) :=
    Prod.ext_iff.mpr ⟨hmiss, getCachedData_none_snd c _ now hmiss⟩
  constructor
  · unfold loadXtreamData
    dsimp only
    rw [hpair]
    have halt := tryAlternativeFormats_failed cfg w st ids hm3u
    rcases hprimary with hp | hp
    · rw [hp, halt]
    · rw [hp, halt]
  · exact mapGet_mapDelete_self c _ hnd

/-- C1 witness: a concrete run in which every upstream fetch throws and the
    cache starts empty: the load returns ok with the untouched state and an
    empty cache. -/
theorem claim_C1_load_failure_witness :
    loadXtreamData
      { xtreamUrl := "http://h", xtreamUsername := "u", xtreamPassword := "p" }
      (fun _ => "x")
      { testResp := none, liveResp := none, vodResp := none, seriesResp := none,
        liveCatResp := none, vodCatResp := none, seriesCatResp := none, m3uResp := none }
      { channels := [], movies := [], series := [],
        categories := { live := [], movies := [], series := [] } }
      [] 0 (fun _ => "r") =
      .ok
        ({ channels := [], movies := [], series := [],
           categories := { live := [], movies := [], series := [] } },
         mapDelete [] ("iptv_data_" ++ (fun _ : String => "x") ("http://h" ++ "u"))) ∧
    mapGet
      (mapDelete ([] : CacheMap AddonState)
        ("iptv_data_" ++ (fun _ : String => "x") ("http://h" ++ "u")))
      ("iptv_data_" ++ (fun _ : String => "x") ("http://h" ++ "u")) = none :=
  claim_C1_load_failure
    { xtreamUrl := "http://h", xtreamUsername := "u", xtreamPassword := "p" }
    (fun _ => "x")
    { testResp := none, liveResp := none, vodResp := none, seriesResp := none,
      liveCatResp := none, vodCatResp := none, seriesCatResp := none, m3uResp := none }
    { channels := [], movies := [], series := [],
      categories := { live := [], movies := [], series := [] } }
    [] 0 (fun _ => "r")
    (by simp) rfl (Or.inr rfl) (Or.inl rfl)

/-- C1 counterexample: with the primary path and the fallback both failing,
    loadXtreamData does not raise UpstreamError: it returns ok (the spec
    example requires the load to raise). -/
theorem claim_C1_counterexample :
    loadXtreamData
      { xtreamUrl := "http://h", xtreamUsername := "u", xtreamPassword := "p" }
      (fun _ => "x")
      { testResp := none, liveResp := none, vodResp := none, seriesResp := none,
        liveCatResp := none, vodCatResp := none, seriesCatResp := none, m3uResp := none }
      { channels := [], movies := [], series := [],
        categories := { live := [], movies := [], series := [] } }
      [] 0 (fun _ => "r") =
      Except.ok
        ({ channels := [], movies := [], series := [],
           categories := { live := [], movies := [], series := [] } },
         ([] : CacheMap AddonState)) := rfl

/-! ## Claim C8: search ranking -/

theorem qdiv_le_one (m n : ℕ) (h : m ≤ n) : (m : ℚ) / (n : ℚ) ≤ 1 := by
  rcases Nat.eq_zero_or_pos n with hn | hn
  · subst hn
    have hm : m = 0 := Nat.le_zero.mp h
    subst hm
    norm_num
  · rw [div_le_one (by exact_mod_cast hn)]
    exact_mod_cast h

theorem translitStep_ge_acc (nm C : List Char) (acc : ℚ) (t : String) :
    acc ≤ translitStep nm C acc t := by
  unfold translitStep
  dsimp only
  have hacc1 : acc ≤ (if containsSubL nm t.data = true then max acc 75
      else if containsSubL C t.data = true then max acc 55 else acc) := by
    by_cases h1 : containsSubL nm t.data
    · simp only [h1, if_true]
      exact le_max_left acc 75
    · simp only [h1, Bool.false_eq_true, if_false]
      by_cases h3 : containsSubL C t.data
      · simp only [h3, if_true]
        exact le_max_left acc 55
      · simp only [h3, Bool.false_eq_true, if_false]
        exact le_refl acc
  by_cases h2 : 0 < (List.filter
      (fun tw => (splitWsL nm).any (fun nw => containsSubL nw tw) ||
        (splitWsL C).any (fun cw => containsSubL cw tw)) (splitWsL t.data)).length
  · rw [if_pos h2]
    exact le_trans hacc1 (le_max_left _ _)
  · rw [if_neg h2]
    exact hacc1

theorem foldl_translitStep_ge (nm C : List Char) (l : List String) (acc : ℚ) :
    acc ≤ List.foldl (translitStep nm C) acc l := by
  induction l generalizing acc with
  | nil => exact le_refl acc
  | cons t rest ih =>
    exact le_trans (translitStep_ge_acc nm C acc t) (ih (translitStep nm C acc t))

theorem translitStep_le_60 (nm C : List Char) (acc : ℚ) (t : String)
    (hacc : acc ≤ 60) (hname : containsSubL nm t.data = false) :
    translitStep nm C acc t ≤ 60 := by
  unfold translitStep
  dsimp only
  rw [hname]
  simp only [Bool.false_eq_true, if_false]
  have hacc1 : (if containsSubL C t.data = true then max acc 55 else acc) ≤ 60 := by
    by_cases h3 : containsSubL C t.data
    · simp only [h3, if_true]
      exact max_le hacc (by norm_num)
    · simp only [h3, Bool.false_eq_true, if_false]
      exact hacc
  by_cases h2 : 0 < (List.filter
      (fun tw => (splitWsL nm).any (fun nw => containsSubL nw tw) ||
        (splitWsL C).any (fun cw => containsSubL cw tw)) (splitWsL t.data)).length
  · rw [if_pos h2]
    apply max_le hacc1
    have hmn : (List.filter
        (fun tw => (splitWsL nm).any (fun nw => containsSubL nw tw) ||
          (splitWsL C).any (fun cw => containsSubL cw tw)) (splitWsL t.data)).length ≤
        (splitWsL t.data).length := List.length_filter_le _ _
    have hdiv := qdiv_le_one _ _ hmn
    nlinarith [hdiv]
  · rw [if_neg h2]
    exact hacc1

theorem foldl_translitStep_le_60 (nm C : List Char) (l : List String) (acc : ℚ)
    (hacc : acc ≤ 60) (hname : ∀ t ∈ l, containsSubL nm t.data = false) :
    List.foldl (translitStep nm C) acc l ≤ 60 := by
  induction l generalizing acc with
  | nil => exact hacc
  | cons t rest ih =>
    exact ih _ (translitStep_le_60 nm C acc t hacc (hname t (by simp)))
      (fun t' ht' => hname t' (by simp [ht']))

theorem computeScore_bb (id url cat : String) :
    computeScore "breaking bad"
      { id := id, name := "Breaking Bad S01E01", url := url, category := cat } =
      1700 / 19 := by
  unfold computeScore
  dsimp only
  rw [show lowerL ("Breaking Bad S01E01".data) = "breaking bad s01e01".data from by decide]
  have hm1 : matchStage1 "breaking bad" ("breaking bad s01e01".data) (lowerL cat.data) =
      1700 / 19 := by
    unfold matchStage1
    rw [if_neg (by decide), if_pos (by decide)]
    rw [show ("breaking bad".length) = 12 from rfl]
    rw [show (("breaking bad s01e01".data).length) = 19 from rfl]
    norm_num
  rw [hm1]
  rw [if_neg (by norm_num), if_neg (by norm_num)]

theorem translitStep_bb_ge_50 (C : List Char) :
    50 ≤ translitStep ("breaking news".data) C 0 "breaking bad" := by
  unfold translitStep
  dsimp only
  rw [show containsSubL ("breaking news".data) ("breaking bad".data) = false from by decide]
  simp only [Bool.false_eq_true, if_false]
  rw [show splitWsL ("breaking bad".data) = ["breaking".data, "bad".data] from by decide]
  rw [show splitWsL ("breaking news".data) = ["breaking".data, "news".data] from by decide]
  have hp1 : (["breaking".data, "news".data].any (fun nw => containsSubL nw ("breaking".data)) ||
      (splitWsL C).any (fun cw => containsSubL cw ("breaking".data))) = true := by
    rw [show (["breaking".data, "news".data].any
      (fun nw => containsSubL nw ("breaking".data))) = true from by decide]
    rfl
  have hp2 : (["breaking".data, "news".data].any (fun nw => containsSubL nw ("bad".data)) ||
      (splitWsL C).any (fun cw => containsSubL cw ("bad".data))) =
      (splitWsL C).any (fun cw => containsSubL cw ("bad".data)) := by
    rw [show (["breaking".data, "news".data].any
      (fun nw => containsSubL nw ("bad".data))) = false from by decide]
    rw [Bool.false_or]
  rw [show List.filter
      (fun tw => ["breaking".data, "news".data].any (fun nw => containsSubL nw tw) ||
        (splitWsL C).any (fun cw => containsSubL cw tw)) ["breaking".data, "bad".data] =
      "breaking".data :: (if (splitWsL C).any (fun cw => containsSubL cw ("bad".data))
        then ["bad".data] else []) from by
    by_cases hb : (splitWsL C).any (fun cw => containsSubL cw ("bad".data)) = true
    · simp only [List.filter, hp1, hb, Bool.or_true, if_pos]
    · simp only [List.filter, hp1, hp2]
      rw [show ((splitWsL C).any fun cw => containsSubL cw ("bad".data)) = false from by
        simpa using hb]
      simp]
  by_cases hb : (splitWsL C).any (fun cw => containsSubL cw ("bad".data)) = true
  · rw [if_pos hb]
    rw [if_pos (by simp)]
    refine le_trans ?_ (le_max_right _ _)
    norm_num
  · rw [if_neg hb]
    rw [if_pos (by simp)]
    refine le_trans ?_ (le_max_right _ _)
    norm_num

theorem computeScore_bn (id url cat : String) :
    50 ≤ computeScore "breaking bad"
        { id := id, name := "Breaking News", url := url, category := cat } ∧
    computeScore "breaking bad"
        { id := id, name := "Breaking News", url := url, category := cat } ≤ 60 := by
  unfold computeScore
  dsimp only
  rw [show lowerL ("Breaking News".data) = "breaking news".data from by decide]
  have hm1 : matchStage1 "breaking bad" ("breaking news".data) (lowerL cat.data) =
      (if containsSubL (lowerL cat.data) ("breaking bad".data) = true then 60 else 0) := by
    unfold matchStage1
    rw [if_neg (by decide), if_neg (by decide)]
  rw [hm1]
  by_cases hcat : containsSubL (lowerL cat.data) ("breaking bad".data) = true
  · rw [if_pos hcat]
    rw [if_neg (by norm_num), if_neg (by norm_num)]
    norm_num
  · rw [if_neg hcat]
    rw [if_pos rfl]
    have hT : ∀ t ∈ getTransliterations "breaking bad",
        containsSubL ("breaking news".data) t.data = false := by decide
    have hub := foldl_translitStep_le_60 ("breaking news".data) (lowerL cat.data)
      (getTransliterations "breaking bad") 0 (by norm_num) hT
    have hlb : 50 ≤ List.foldl (translitStep ("breaking news".data) (lowerL cat.data)) 0
        (getTransliterations "breaking bad") := by
      have hne : getTransliterations "breaking bad" ≠ [] := by decide
      rcases hTc : getTransliterations "breaking bad" with _ | ⟨t0, rest⟩
      · exact absurd hTc hne
      · have hhead : (getTransliterations "breaking bad").head? = some "breaking bad" := by
          decide
        rw [hTc] at hhead
        have ht0 : t0 = "breaking bad" := by simpa using hhead
        subst ht0
        rw [List.foldl_cons]
        refine le_trans ?_ (foldl_translitStep_ge _ _ rest _)
        exact translitStep_bb_ge_50 (lowerL cat.data)
    have hfne : ¬ (List.foldl (translitStep ("breaking news".data) (lowerL cat.data)) 0
        (getTransliterations "breaking bad") = 0) := by
      intro h0
      rw [h0] at hlb
      norm_num at hlb
    rw [if_neg hfne]
    exact ⟨hlb, hub⟩

theorem getCatalogItems_fst_search (st : AddonState) (ty : String) (s : String)
    (hs : ¬ s = "") :
    (getCatalogItems st ty none (some s)).1 =
      searchResults (trimS (lowerS s)) (kindList st ty) := by
  unfold getCatalogItems
  have hopt : optActive (some s) = true := by simp [optActive, hs]
  simp [hopt, genreFilterActive]

theorem mem_scored {sl : String} {l : List Item} {p : Item × ℚ}
    (hp : p ∈ l.filterMap (fun it =>
      let ms := computeScore sl it
      if 0 < ms then some (it, ms) else none)) :
    p.2 = computeScore sl p.1 ∧ 0 < p.2 ∧ p.1 ∈ l := by
  obtain ⟨it, hit, hf⟩ := List.mem_filterMap.mp hp
  dsimp only at hf
  by_cases h : 0 < computeScore sl it
  · rw [if_pos h] at hf
    have := Option.some.inj hf
    rw [← this]
    exact ⟨rfl, h, hit⟩
  · rw [if_neg h] at hf
    simp at hf

theorem scored_mem_intro {sl : String} {l : List Item} {it : Item}
    (hit : it ∈ l) (h : 0 < computeScore sl it) :
    (it, computeScore sl it) ∈ l.filterMap (fun it =>
      let ms := computeScore sl it
      if 0 < ms then some (it, ms) else none) :=
  List.mem_filterMap.mpr ⟨it, hit, by dsimp only; rw [if_pos h]⟩

theorem searchResults_spec (sl : String) (l : List Item) :
    ∃ sorted : List (Item × ℚ),
      searchResults sl l = sorted.map (·.1) ∧
      List.Sorted searchSortRel sorted ∧
      (∀ p ∈ sorted, p.2 = computeScore sl p.1 ∧ 0 < p.2 ∧ p.1 ∈ l) ∧
      (∀ it ∈ l, 0 < computeScore sl it → (it, computeScore sl it) ∈ sorted) := by
  refine ⟨List.insertionSort searchSortRel (l.filterMap (fun it =>
      let ms := computeScore sl it
      if 0 < ms then some (it, ms) else none)),
    rfl, List.sorted_insertionSort _ _, ?_, ?_⟩
  · intro p hp
    exact mem_scored ((List.perm_insertionSort _ _).mem_iff.mp hp)
  · intro it hit h
    exact (List.perm_insertionSort _ _).mem_iff.mpr (scored_mem_intro hit h)

/-- C8: for any snapshot whose requested kind contains an item named
    Breaking Bad S01E01 and an item named Breaking News, the search query
    breaking bad returns both (they both match) and ranks every occurrence
    of Breaking Bad S01E01 strictly above every occurrence of Breaking
    News. -/
theorem claim_C8_search_ranking (st : AddonState) (ty : String) (a b : Item)
    (ha : a ∈ kindList st ty) (hb : b ∈ kindList st ty)
    (hna : a.name = "Breaking Bad S01E01") (hnb : b.name = "Breaking News") :
    (∃ i, ∃ hi : i < ((getCatalogItems st ty none (some "breaking bad")).1).length,
      (((getCatalogItems st ty none (some "breaking bad")).1).get ⟨i, hi⟩).name =
        "Breaking Bad S01E01") ∧
    (∃ j, ∃ hj : j < ((getCatalogItems st ty none (some "breaking bad")).1).length,
      (((getCatalogItems st ty none (some "breaking bad")).1).get ⟨j, hj⟩).name =
        "Breaking News") ∧
    (∀ i j (hi : i < ((getCatalogItems st ty none (some "breaking bad")).1).length)
       (hj : j < ((getCatalogItems st ty none (some "breaking bad")).1).length),
      (((getCatalogItems st ty none (some "breaking bad")).1).get ⟨i, hi⟩).name =
        "Breaking Bad S01E01" →
      (((getCatalogItems st ty none (some "breaking bad")).1).get ⟨j, hj⟩).name =
        "Breaking News" → i < j) := by
  have hr : (getCatalogItems st ty none (some "breaking bad")).1 =
      searchResults (trimS (lowerS "breaking bad")) (kindList st ty) :=
    getCatalogItems_fst_search st ty _ (by decide)
  rw [show trimS (lowerS "breaking bad") = "breaking bad" from by decide] at hr
  obtain ⟨sorted, hmap, hsort, hmem, hintro⟩ :=
    searchResults_spec "breaking bad" (kindList st ty)
  rw [hmap] at hr
  rw [hr]
  have hscbb : ∀ it : Item, it.name = "Breaking Bad S01E01" →
      computeScore "breaking bad" it = 1700 / 19 := by
    intro it h
    obtain ⟨pid, pname, purl, pcat⟩ := it
    simp only at h
    subst h
    exact computeScore_bb pid purl pcat
  have hscbn : ∀ it : Item, it.name = "Breaking News" →
      50 ≤ computeScore "breaking bad" it ∧ computeScore "breaking bad" it ≤ 60 := by
    intro it h
    obtain ⟨pid, pname, purl, pcat⟩ := it
    simp only at h
    subst h
    exact computeScore_bn pid purl pcat
  have hsa : computeScore "breaking bad" a = 1700 / 19 := hscbb a hna
  have hsb : 50 ≤ computeScore "breaking bad" b ∧ computeScore "breaking bad" b ≤ 60 :=
    hscbn b hnb
  have hamem : (a, computeScore "breaking bad" a) ∈ sorted :=
    hintro a ha (by rw [hsa]; norm_num)
  have hbmem : (b, computeScore "breaking bad" b) ∈ sorted :=
    hintro b hb (by linarith [hsb.1])
  refine ⟨?_, ?_, ?_⟩
  · have hm : a ∈ sorted.map (·.1) :=
      List.mem_map.mpr ⟨(a, computeScore "breaking bad" a), hamem, rfl⟩
    obtain ⟨i, hi, hget⟩ := List.mem_iff_getElem.mp hm
    exact ⟨i, hi, by rw [List.get_eq_getElem, hget, hna]⟩
  · have hm : b ∈ sorted.map (·.1) :=
      List.mem_map.mpr ⟨(b, computeScore "breaking bad" b), hbmem, rfl⟩
    obtain ⟨j, hj, hget⟩ := List.mem_iff_getElem.mp hm
    exact ⟨j, hj, by rw [List.get_eq_getElem, hget, hnb]⟩
  · intro i j hi hj hni hnj
    have hi2 : i < sorted.length := by
      rw [List.length_map] at hi
      exact hi
    have hj2 : j < sorted.length := by
      rw [List.length_map] at hj
      exact hj
    have hni2 : (sorted.get ⟨i, hi2⟩).1.name = "Breaking Bad S01E01" := by
      rw [← hni, List.get_eq_getElem, List.get_eq_getElem, List.getElem_map]
    have hnj2 : (sorted.get ⟨j, hj2⟩).1.name = "Breaking News" := by
      rw [← hnj, List.get_eq_getElem, List.get_eq_getElem, List.getElem_map]
    by_contra hij
    push_neg at hij
    have hine : i ≠ j := by
      intro he
      subst he
      rw [hni2] at hnj2
      exact absurd hnj2 (by decide)
    have hji : j < i := lt_of_le_of_ne hij (Ne.symm hine)
    have hrel : searchSortRel (sorted.get ⟨j, hj2⟩) (sorted.get ⟨i, hi2⟩) :=
      hsort.rel_get_of_lt (by exact hji)
    have hpi := hmem _ (sorted.get_mem i hi2)
    have hpj := hmem _ (sorted.get_mem j hj2)
    have hsi : (sorted.get ⟨i, hi2⟩).2 = 1700 / 19 := by
      rw [hpi.1]
      exact hscbb _ hni2
    have hsj : (sorted.get ⟨j, hj2⟩).2 ≤ 60 := by
      rw [hpj.1]
      exact (hscbn _ hnj2).2
    unfold searchSortRel searchSortLe at hrel
    have hne2 : ¬ ((sorted.get ⟨i, hi2⟩).2 = (sorted.get ⟨j, hj2⟩).2) := by
      rw [hsi]
      intro he
      rw [← he] at hsj
      norm_num at hsj
    rw [if_neg hne2] at hrel
    have hle := of_decide_eq_true hrel
    rw [hsi] at hle
    have hcontra : (1700 : ℚ) / 19 ≤ 60 := by linarith [hsj]
    norm_num at hcontra

theorem claim_C8_search_ranking_witness :
    c8ItemA ∈ kindList c8State "series" ∧ c8ItemB ∈ kindList c8State "series" ∧
    ((∃ i, ∃ hi : i < ((getCatalogItems c8State "series" none (some "breaking bad")).1).length,
        (((getCatalogItems c8State "series" none (some "breaking bad")).1).get ⟨i, hi⟩).name =
          "Breaking Bad S01E01") ∧
     (∃ j, ∃ hj : j < ((getCatalogItems c8State "series" none (some "breaking bad")).1).length,
        (((getCatalogItems c8State "series" none (some "breaking bad")).1).get ⟨j, hj⟩).name =
          "Breaking News") ∧
     (∀ i j (hi : i < ((getCatalogItems c8State "series" none (some "breaking bad")).1).length)
        (hj : j < ((getCatalogItems c8State "series" none (some "breaking bad")).1).length),
       (((getCatalogItems c8State "series" none (some "breaking bad")).1).get ⟨i, hi⟩).name =
         "Breaking Bad S01E01" →
       (((getCatalogItems c8State "series" none (some "breaking bad")).1).get ⟨j, hj⟩).name =
         "Breaking News" → i < j)) :=
  ⟨by decide, by decide,
   claim_C8_search_ranking c8State "series" c8ItemA c8ItemB (by decide) (by decide) rfl rfl⟩
